import Mathlib

/-!
# Babylon: NONMEM job staging, command planning and artifact policy

A shallow embedding of `cmd/nonmem.go` (package `cmd`) and
`runner/find_next_dir_num.go` (package `runner`) of
metrumresearchgroup/babylon, with theorems about the artifact policy
(`getCleanableFileList`, `filesToCleanup`, `getCopiableFileList`, `filesToCopy`),
the directory lifecycle (`doesDirectoryContainOutputFiles`,
`copyFileToDestination`, `createChildDirectories`) and the execution planner
(`buildNonMemCommandString`, `generateParaFile`), the job descriptor builder
(`NewNonMemModel`), the argument resolver (`nonmemModelsFromArguments`) and the
next-run suggestion (`FindNextEstDirNum`).

Conventions of the embedding:
* Go strings are Lean strings; every string operation is defined by structural
  recursion on the list of characters.
* Go `int` values for levels and node counts are mathematical integers; the loop
  counter of `for i := 0; i <= level; i++` and the difference `nodes - 1` are
  not wrapped. The run numbers of `FindNextEstDirNum` are 64-bit: `max + 1` and
  `len + 1` wrap around (`wrapInt64`).
* Go `error` values are their messages; `nil` is `none`.
* `log.Fatal`/`log.Fatalf` terminate the process: a function that can reach one
  returns `Except String _`, the error being the fatal message.
* Functions of other packages (`path.Join`, `parser.FindOutputFiles`,
  `parser.AddPathLevelToData`, and the file-system calls of `afero`, `utils`
  and `configlib`) are parameters of the embedding.
-/

namespace Babylon

/-! ## Go string helpers -/

/-- Go `strings.Join(elems, sep)`. -/
def stringsJoin : List String → String → String
  | [], _ => ""
  | [x], _ => x
  | x :: y :: rest, sep => x ++ sep ++ stringsJoin (y :: rest) sep

/-- Whether `old` occurs in `s` starting at its first character. -/
def startsWithChars : List Char → List Char → Bool
  | [], _ => true
  | _ :: _, [] => false
  | o :: os, c :: cs => o == c && startsWithChars os cs

/-- Index-free form of Go `strings.Contains` on character lists. -/
def containsChars (sub : List Char) : List Char → Bool
  | [] => startsWithChars sub []
  | c :: cs => startsWithChars sub (c :: cs) || containsChars sub cs

/-- Go `strings.Contains(s, substr)`. -/
def stringsContains (s substr : String) : Bool :=
  containsChars substr.data s.data

/-- Replacement of the first occurrence of `old` by `new` in a character list. -/
def replaceFirstChars (old new : List Char) : List Char → List Char
  | [] => if old = [] then new else []
  | c :: cs =>
    if startsWithChars old (c :: cs) then new ++ (c :: cs).drop old.length
    else c :: replaceFirstChars old new cs

/-- Go `strings.Replace(s, old, new, 1)`: only the first occurrence of `old`
is replaced. -/
def stringsReplaceFirst (s old new : String) : String :=
  ⟨replaceFirstChars old.data new.data s.data⟩

/-- Pieces of a character list cut at every occurrence of `sep`; never empty. -/
def splitChars (sep : Char) : List Char → List (List Char)
  | [] => [[]]
  | c :: cs =>
    if c = sep then [] :: splitChars sep cs
    else
      match splitChars sep cs with
      | [] => [[c]]
      | p :: ps => (c :: p) :: ps

/-- Go `strings.Split(s, sep)` for a one-character separator. -/
def stringsSplit (s : String) (sep : Char) : List String :=
  (splitChars sep s.data).map String.mk

/-- Go `unicode.IsSpace`. -/
def isSpace (c : Char) : Bool :=
  c.toNat = 0x09 || c.toNat = 0x0A || c.toNat = 0x0B || c.toNat = 0x0C || c.toNat = 0x0D
    || c.toNat = 0x20 || c.toNat = 0x85 || c.toNat = 0xA0 || c.toNat = 0x1680
    || (0x2000 ≤ c.toNat && c.toNat ≤ 0x200A)
    || c.toNat = 0x2028 || c.toNat = 0x2029 || c.toNat = 0x202F || c.toNat = 0x205F
    || c.toNat = 0x3000

/-- Go `strings.TrimSpace`: leading and trailing white space removed. -/
def stringsTrimSpace (s : String) : String :=
  ⟨((s.data.dropWhile isSpace).reverse.dropWhile isSpace).reverse⟩

/-! ## Data model -/

/-- An entry of `runner.TargetedFile`: a file name and the level it was selected at. -/
structure TargetedFile where
  File : String
  Level : Int
  deriving DecidableEq, Repr

/-- The `runner.FileCleanInstruction` record. -/
structure FileCleanInstruction where
  Location : String
  FilesToRemove : List TargetedFile
  deriving DecidableEq, Repr

/-- The `runner.FileCopyInstruction` record. -/
structure FileCopyInstruction where
  CopyTo : String
  CopyFrom : String
  FilesToCopy : List TargetedFile
  deriving DecidableEq, Repr

/-- One entry of the version mapping `Configuration.Nonmem`. -/
structure NonMemDetail where
  Home : String
  Executable : String
  Default : Bool
  deriving DecidableEq, Repr

/-- The block `Configuration.Parallel`. -/
structure ParallelConfig where
  Parallel : Bool
  Nodes : Int
  Timeout : Int
  MPIExecPath : String
  Parafile : String
  deriving DecidableEq, Repr

/-- The fields of `configlib.Config` that `cmd/nonmem.go` reads. The Go map
`Nonmem` is an association list, in the order in which `range` visits it. -/
structure Config where
  Nonmem : List (String × NonMemDetail)
  Parallel : ParallelConfig
  CleanLvl : Int
  CopyLvl : Int
  Overwrite : Bool
  deriving DecidableEq, Repr

/-- The Go struct `NonMemModel`. -/
structure NonMemModel where
  BBIVersion : String
  Model : String
  Path : String
  DataPath : String
  DataMD5 : String
  FileName : String
  Extension : String
  OriginalPath : String
  OutputDir : String
  Configuration : Config
  Error : Option String
  deriving DecidableEq, Repr

/-- Functions of other packages that `cmd/nonmem.go` calls and that do not
touch the file system. -/
structure Lib where
  /-- Go `path.Join`. -/
  pathJoin : List String → String
  /-- The call `parser.FindOutputFiles`. -/
  findOutputFiles : List String → List String
  /-- The call `parser.AddPathLevelToData`. -/
  addPathLevelToData : String → String

/-- The file-system calls of `cmd/nonmem.go` over a file-system state `σ`.
A call that returns a value and an error returns both components, as in Go. -/
structure FsOps (σ : Type) where
  /-- The call `afero.DirExists`, its error dropped as at both call sites. -/
  dirExists : σ → String → Bool
  /-- The call `fs.MkdirAll(dir, 0750)`. -/
  mkdirAll : σ → String → σ × Option String
  /-- The call `fs.RemoveAll`. -/
  removeAll : σ → String → σ × Option String
  /-- The call `utils.ReadLines`. -/
  readLines : σ → String → List String × Option String
  /-- The call `fs.Stat`, giving the file mode. -/
  stat : σ → String → Except String Nat
  /-- The call `afero.WriteFile(fs, name, contents, mode)`. -/
  writeFile : σ → String → String → Nat → σ × Option String
  /-- The call `afero.ReadDir`, giving the entry names. -/
  readDir : σ → String → List String × Option String
  /-- The call `WriteGitIgnoreFile`. -/
  writeGitIgnoreFile : σ → String → σ
  /-- The call `configlib.WriteViperConfig`. -/
  writeViperConfig : σ → String → Bool → Config → σ × Option String

/-! ## Artifact policy -/

/-- The table `nonMemTemporaryFiles`. -/
def nonMemTemporaryFiles : List String :=
  [ "background.set", "compile.lnk", "FCON", "FDATA", "FMSG", "FREPORT", "FSIZES",
    "FSTREAM", "FSUBS", "FSUBS.0", "FSUBS.o", "FSUBS_MU.F90", "FSUBS.f90", "fsubs.f90",
    "FSUBS2", "gfortran.txt", "GFCOMPILE.BAT", "INTER", "licfile.set", "linkc.lnk",
    "LINK.LNK", "LINKC.LNK", "locfile.set", "maxlim.set", "newline", "nmexec.set",
    "nmpathlist.txt", "nmprd4p.mod", "nobuild.set", "parafile.set", "parafprint.set",
    "prcompile.set", "prdefault.set", "prsame.set", "PRSIZES.f90", "rundir.set",
    "runpdir.set", "simparon.set", "temp_dir", "tprdefault.set", "trskip.set",
    "worker.set", "xmloff.set", "fort.2001", "fort.2002", "flushtime.set", "nonmem",
    "FPWARN", "condorarguments.set", "condoropenmpiscript.set", "condor.set", "mpiloc",
    "nmmpi.sh", "temp.out", "trashfile.xxx" ]

/-- The local table `msfFileSuffixes` of `getCleanableFileList`. -/
def msfFileSuffixes : List String :=
  ["", "_ETAS", "_RMAT", "_SMAT", ".msf", "_ETAS.msf", "_RMAT.msf", "_SMAT.msf"]

/-- The loop `for i := 0; i <= level; i++ { if val, ok := files[i]; ok { output =
append(output, val...) } }` over a level-indexed table. -/
def collectLevels (files : Int → Option (List String)) (level : Int) : List String :=
  ((List.range (level + 1).toNat).map (fun (i : Nat) => (files (i : Int)).getD [])).flatten

/-- The Go function `getCleanableFileList`: only key 1 of the table is populated. -/
def getCleanableFileList (file : String) (level : Int) : List String :=
  let files : Int → Option (List String) := fun i =>
    if i = 1 then
      some (nonMemTemporaryFiles ++
        msfFileSuffixes.map (fun f => stringsReplaceFirst (file ++ f) "run" "msfb"))
    else none
  collectLevels files level

/-- The Go function `isFilenameInExceptions`. -/
def isFilenameInExceptions : List String → String → Bool
  | [], _ => false
  | v :: rest, needle => if v = needle then true else isFilenameInExceptions rest needle

/-- The Go function `newTargetFile`. -/
def newTargetFile (filename : String) (level : Int) : TargetedFile :=
  { File := filename, Level := level }

/-- One character position of the patterns in `parallelRegexesToRemove`. -/
inductive CharClass where
  | lit (c : Char)
  | anyButNewline
  | digit
  deriving DecidableEq, Repr

/-- Whether a character belongs to a class: a literal, `.` (anything but a
line feed) or `[0-9]`. -/
def CharClass.accepts : CharClass → Char → Bool
  | .lit a, c => a == c
  | .anyButNewline, c => c != '\n'
  | .digit, c => '0'.toNat ≤ c.toNat && c.toNat ≤ '9'.toNat

/-- Whether the classes accept the leading characters of the text, one each. -/
def matchesHere : List CharClass → List Char → Bool
  | [], _ => true
  | _ :: _, [] => false
  | k :: ks, c :: cs => k.accepts c && matchesHere ks cs

/-- Unanchored matching, as `(*Regexp).MatchString`: the pattern matches at some
position of the text. -/
def matchesAnywhere (pat : List CharClass) : List Char → Bool
  | [] => matchesHere pat []
  | c :: cs => matchesHere pat (c :: cs) || matchesAnywhere pat cs

/-- The table `parallelRegexesToRemove`: `worker[0-9]{1,}` and `fort.[0-9]{1,}`.
Unanchored, `[0-9]{1,}` matches as soon as one digit follows. -/
def parallelRegexesToRemove : List (List CharClass) :=
  [ "worker".data.map CharClass.lit ++ [CharClass.digit],
    "fort".data.map CharClass.lit ++ [CharClass.anyButNewline, CharClass.digit] ]

/-- The call `regexp.MustCompile(variant).MatchString(name)`. -/
def regexMatchString (variant : List CharClass) (name : String) : Bool :=
  matchesAnywhere variant name.data

/-- The Go function `filesToCleanup`. The directory is listed once for each
pattern; a failed listing is logged and its (possibly empty) result is used. -/
def filesToCleanup {σ : Type} (ops : FsOps σ) (fs : σ) (model : NonMemModel)
    (exceptions : List String) : FileCleanInstruction :=
  let files := getCleanableFileList model.FileName model.Configuration.CleanLvl
  let kept := (files.filter (fun v => !isFilenameInExceptions exceptions v)).map
    (fun v => newTargetFile v model.Configuration.CleanLvl)
  let scanned :=
    if model.Configuration.Parallel.Parallel then
      (parallelRegexesToRemove.map (fun variant =>
        ((ops.readDir fs model.OutputDir).1.filter (fun f => regexMatchString variant f)).map
          (fun f => newTargetFile f model.Configuration.CleanLvl))).flatten
    else []
  { Location := model.OutputDir, FilesToRemove := kept ++ scanned }

/-- The Go function `extrapolateCopyFilesFromExtensions`, with its three
extension tables (keys 1, 2 and 3). -/
def extrapolateCopyFilesFromExtensions (filename : String) (level : Int) : List String :=
  let extensions : Int → Option (List String) := fun i =>
    if i = 1 then some [".xml", ".grd", ".shk", ".cor", ".cov", ".ext", ".lst"]
    else if i = 2 then some [".clt", ".coi", ".clt", ".coi", ".cpu", ".shm", ".phi"]
    else if i = 3 then
      some ["", "_ETAS", "_RMAT", "_SMAT", ".msf", "_ETAS.msf", "_RMAT.msf", "_SMAT.msf"]
    else none
  collectLevels
    (fun i => (extensions i).map (fun val => val.map (fun ext => stringsTrimSpace (filename ++ ext))))
    level

/-- The Go function `getCopiableFileList`. A failure to read the job file is
logged only; the lines that `utils.ReadLines` returned are used either way. -/
def getCopiableFileList {σ : Type} (lib : Lib) (ops : FsOps σ) (fs : σ)
    (file : String) (level : Int) (filepath : String) : List String :=
  let modelPieces := stringsSplit file '.'
  let filename := modelPieces.headD ""
  let fileLines := (ops.readLines fs (lib.pathJoin [filepath, file])).1
  let files : Int → Option (List String) := fun i =>
    if i = 1 then some (lib.findOutputFiles fileLines) else none
  collectLevels files level ++ extrapolateCopyFilesFromExtensions filename level

/-- The Go function `filesToCopy`. -/
def filesToCopy {σ : Type} (lib : Lib) (ops : FsOps σ) (fs : σ) (model : NonMemModel)
    (mandatoryFiles : List String) : FileCopyInstruction :=
  { CopyTo := model.OriginalPath
    CopyFrom := model.OutputDir
    FilesToCopy :=
      mandatoryFiles.map (fun v => newTargetFile v 11) ++
      (getCopiableFileList lib ops fs model.Model model.Configuration.CopyLvl
        model.OutputDir).map (fun v => newTargetFile v model.Configuration.CopyLvl) }

/-! ## Directory lifecycle -/

/-- The Go function `doesDirectoryContainOutputFiles`. -/
def doesDirectoryContainOutputFiles {σ : Type} (lib : Lib) (ops : FsOps σ) (fs : σ)
    (path modelname : String) : Bool :=
  match ops.readDir fs path with
  | (_, some _) => true
  | (contents, none) =>
    let contentFiles := getCopiableFileList lib ops fs modelname 3 path
    contents.any (fun v => contentFiles.any (fun f => v == f))

/-- The first statement of `copyFileToDestination`: the working directory is
created when it does not exist, the result of `fs.MkdirAll` being dropped. This
is the state in which the source job file is then read. -/
def stateBeforeRead {σ : Type} (ops : FsOps σ) (fs : σ) (l : NonMemModel) : σ :=
  if ops.dirExists fs l.OutputDir then fs else (ops.mkdirAll fs l.OutputDir).1

/-- The Go function `copyFileToDestination`: the resulting file-system state and
the returned error. The results of `fs.MkdirAll` and `afero.WriteFile` are
dropped by the Go code. -/
def copyFileToDestination {σ : Type} (lib : Lib) (ops : FsOps σ) (fs : σ)
    (l : NonMemModel) (modifyPath : Bool) : σ × Option String :=
  let fs1 := stateBeforeRead ops fs l
  match ops.readLines fs1 l.Path with
  | (_, some _) => (fs1, some ("Unable to read the contents of " ++ l.Path))
  | (sourceLines, none) =>
    match ops.stat fs1 l.Path with
    | .error err => (fs1, some err)
    | .ok mode =>
      let rewritten :=
        if modifyPath then
          sourceLines.map (fun line =>
            if stringsContains line "$DATA" then lib.addPathLevelToData line else line)
        else sourceLines
      let fileContents := stringsJoin rewritten "\n"
      ((ops.writeFile fs1 (lib.pathJoin [l.OutputDir, l.Model]) fileContents mode).1, none)

/-- A call of `RecordConcurrentError`: the run identifier and the notes. -/
structure ConcurrentErrorRecord where
  RunIdentifier : String
  Notes : String
  deriving DecidableEq, Repr

/-- What `createChildDirectories` leaves behind: the file-system state, the
returned error and the errors sent to the error channel. -/
structure StagingOutcome (σ : Type) where
  fs : σ
  err : Option String
  recorded : List ConcurrentErrorRecord

/-- The message of the conflict error of `createChildDirectories`. -/
def conflictMessage (outputDir : String) : String :=
  "The target directory, " ++ outputDir ++
    " already exist, but we are configured not to overwrite. Invalid configuration / run state"

/-- The part of `createChildDirectories` after the overwrite check: staging the
job file, the optional ignore file and the configuration. The second
`if err != nil` of the Go code follows a return on the same condition and is
never taken. -/
def stageIntoDirectory {σ : Type} (lib : Lib) (ops : FsOps σ) (git : Bool) (fs : σ)
    (l : NonMemModel) (sge : Bool) : StagingOutcome σ :=
  match copyFileToDestination lib ops fs l true with
  | (fs1, some err) => { fs := fs1, err := some err, recorded := [] }
  | (fs1, none) =>
    let fs2 := if git then ops.writeGitIgnoreFile fs1 l.OutputDir else fs1
    match ops.writeViperConfig fs2 l.OutputDir sge l.Configuration with
    | (fs3, some err) =>
      { fs := fs3, err := some err,
        recorded := [{ RunIdentifier := l.Model, Notes := "Error writing updated viper config" }] }
    | (fs3, none) => { fs := fs3, err := none, recorded := [] }

/-- The Go function `createChildDirectories`; `git` is `viper.GetBool("git")`. -/
def createChildDirectories {σ : Type} (lib : Lib) (ops : FsOps σ) (git : Bool) (fs : σ)
    (l : NonMemModel) (sge : Bool) : StagingOutcome σ :=
  if ops.dirExists fs l.OutputDir then
    if l.Configuration.Overwrite then
      match ops.removeAll fs l.OutputDir with
      | (fs1, some err) => { fs := fs1, err := some err, recorded := [] }
      | (fs1, none) => stageIntoDirectory lib ops git fs1 l sge
    else if !doesDirectoryContainOutputFiles lib ops fs l.OutputDir l.Model then
      stageIntoDirectory lib ops git fs l sge
    else
      { fs := fs, err := some (conflictMessage l.OutputDir), recorded := [] }
  else stageIntoDirectory lib ops git fs l sge

/-! ## Execution planner -/

/-- Equality of results is decidable when it is for errors and values. -/
instance instDecidableEqExcept {ε α : Type} [DecidableEq ε] [DecidableEq α] :
    DecidableEq (Except ε α)
  | .error a, .error b => if h : a = b then isTrue (by rw [h]) else isFalse (by simpa using h)
  | .ok a, .ok b => if h : a = b then isTrue (by rw [h]) else isFalse (by simpa using h)
  | .error _, .ok _ => isFalse (by simp)
  | .ok _, .error _ => isFalse (by simp)

/-- The loop of `buildNonMemCommandString` over the version mapping: every entry
flagged default overwrites the pair found so far. -/
def findDefaultVersion : List (String × NonMemDetail) → String × String → String × String
  | [], found => found
  | (_, v) :: rest, found =>
    if v.Default then findDefaultVersion rest (v.Home, v.Executable)
    else findDefaultVersion rest found

/-- The map access `l.Configuration.Nonmem[key]`. -/
def lookupVersion (key : String) : List (String × NonMemDetail) → Option NonMemDetail
  | [] => none
  | (k, v) :: rest => if k = key then some v else lookupVersion key rest

/-- The first half of `buildNonMemCommandString`: the pair `(nmHome, nmBinary)`,
or the message of the `log.Fatal` that ends the process. `nmVersion` is
`viper.GetString("nmVersion")`. -/
def resolveNonMemVersion (nmVersion : String) (l : NonMemModel) :
    Except String (String × String) :=
  let selected : Except String (String × String) :=
    if nmVersion = "" then .ok (findDefaultVersion l.Configuration.Nonmem ("", ""))
    else
      match lookupVersion nmVersion l.Configuration.Nonmem with
      | some val => .ok (val.Home, val.Executable)
      | none =>
        .error ("nmVersion of " ++ nmVersion ++
          " was provided but has no configurations in babylon.yaml!")
  match selected with
  | .error msg => .error msg
  | .ok (nmHome, nmBinary) =>
    if nmHome = "" then
      .error "No version was supplied and no default value exists in the configset"
    else .ok (nmHome, nmBinary)

/-- The slice `cmdArgs` of `buildNonMemCommandString`, as it stands at the
return statement. -/
def nonMemCommandArgs (lib : Lib) (l : NonMemModel) : List String :=
  let noBuild := false
  let cmdArgs :=
    [ lib.pathJoin [l.OutputDir, l.Model], "",
      lib.pathJoin [l.OutputDir, l.FileName ++ ".lst"], "" ]
  let cmdArgs := if noBuild then cmdArgs ++ ["--nobuild"] else cmdArgs
  if l.Configuration.Parallel.Parallel then
    cmdArgs ++ ["-parafile=" ++ lib.pathJoin [l.OutputDir, l.FileName ++ ".pnm"]]
  else cmdArgs

/-- The Go function `buildNonMemCommandString`. -/
def buildNonMemCommandString (lib : Lib) (nmVersion : String) (l : NonMemModel) :
    Except String String :=
  match resolveNonMemVersion nmVersion l with
  | .error msg => .error msg
  | .ok (nmHome, nmBinary) =>
    let nmExecutable := lib.pathJoin [nmHome, "run", nmBinary]
    .ok (nmExecutable ++ " " ++ stringsJoin (nonMemCommandArgs lib l) " ")

/-! ## A small in-memory file system, for concrete evaluation -/

/-- A regular file: its path, its lines and its permission bits. -/
structure MemFile where
  path : String
  lines : List String
  mode : Nat
  deriving DecidableEq, Repr

/-- An in-memory file system: the directories and the regular files. -/
structure MemFs where
  dirs : List String
  files : List MemFile
  deriving DecidableEq, Repr

/-- The name of `p` inside directory `dir`, when `p` lies directly in `dir`. -/
def MemFs.childName (dir p : String) : Option String :=
  let lead := dir.data ++ ['/']
  let rest := p.data.drop lead.length
  if startsWithChars lead p.data && !rest.isEmpty && !rest.contains '/' then some ⟨rest⟩
  else none

/-- Whether `p` is `dir` or lies below it. -/
def MemFs.isUnder (dir p : String) : Bool :=
  p == dir || startsWithChars (dir.data ++ ['/']) p.data

/-- The file stored at a path. -/
def MemFs.lookup (fs : MemFs) (p : String) : Option MemFile :=
  fs.files.find? (fun f => f.path == p)

/-- Writing a file: refused when the file exists without the owner write bit or
when its directory does not exist. -/
def MemFs.write (fs : MemFs) (p : String) (lines : List String) (mode : Nat) :
    MemFs × Option String :=
  match fs.lookup p with
  | some f =>
    if f.mode / 128 % 2 = 0 then (fs, some ("open " ++ p ++ ": permission denied"))
    else ({ fs with files := fs.files.map (fun g => if g.path == p then { g with lines := lines } else g) }, none)
  | none =>
    if fs.dirs.any (fun d => (MemFs.childName d p).isSome) then
      ({ fs with files := fs.files ++ [{ path := p, lines := lines, mode := mode }] }, none)
    else (fs, some ("open " ++ p ++ ": no such file or directory"))

/-- The file-system calls over the in-memory file system. -/
def memOps : FsOps MemFs where
  dirExists fs d := fs.dirs.contains d
  mkdirAll fs d := (if fs.dirs.contains d then fs else { fs with dirs := fs.dirs ++ [d] }, none)
  removeAll fs d :=
    ({ dirs := fs.dirs.filter (fun x => !MemFs.isUnder d x)
       files := fs.files.filter (fun f => !MemFs.isUnder d f.path) }, none)
  readLines fs p :=
    match fs.lookup p with
    | some f => (f.lines, none)
    | none => ([], some ("open " ++ p ++ ": no such file or directory"))
  stat fs p :=
    match fs.lookup p with
    | some f => .ok f.mode
    | none => .error ("stat " ++ p ++ ": no such file or directory")
  writeFile fs p contents mode := fs.write p (stringsSplit contents '\n') mode
  readDir fs d :=
    if fs.dirs.contains d then
      (fs.dirs.filterMap (MemFs.childName d) ++ fs.files.filterMap (fun f => MemFs.childName d f.path),
        none)
    else ([], some ("open " ++ d ++ ": no such file or directory"))
  writeGitIgnoreFile fs d := (fs.write (d ++ "/.gitignore") ["*"] 420).1
  writeViperConfig fs d _ _ := fs.write (d ++ "/babylon.yaml") [] 420

/-- A stand-in for the functions of other packages: path elements joined by
`/` (as `path.Join` does for clean, non-empty elements), no output file
declared by a job file, data lines left as they are. -/
def plainLib : Lib where
  pathJoin elems := stringsJoin (elems.filter (fun e => e != "")) "/"
  findOutputFiles _ := []
  addPathLevelToData line := line

/-- A configuration with one default NONMEM version. -/
def sampleConfig : Config where
  Nonmem := [("nm73", { Home := "/opt/NONMEM/nm73", Executable := "nmfe73", Default := false }),
    ("nm74", { Home := "/opt/NONMEM/nm74", Executable := "nmfe74", Default := true })]
  Parallel :=
    { Parallel := false, Nodes := 8, Timeout := 2147483647,
      MPIExecPath := "/usr/local/mpich3/bin/mpiexec", Parafile := "" }
  CleanLvl := 1
  CopyLvl := 1
  Overwrite := false

/-- The descriptor of `/data/run001.mod` staged into `/data/run001`. -/
def sampleModel : NonMemModel where
  BBIVersion := "2.0.0"
  Model := "run001.mod"
  Path := "/data/run001.mod"
  DataPath := ""
  DataMD5 := ""
  FileName := "run001"
  Extension := "mod"
  OriginalPath := "/data"
  OutputDir := "/data/run001"
  Configuration := sampleConfig
  Error := none

/-- The sample descriptor with parallel execution switched on. -/
def sampleParallelModel : NonMemModel :=
  { sampleModel with
    Configuration := { sampleConfig with Parallel := { sampleConfig.Parallel with Parallel := true } } }

/-- A file system after a parallel run: the working directory holds a worker
directory, a report and a transfer scratch file. -/
def fsAfterParallelRun : MemFs where
  dirs := ["/data", "/data/run001", "/data/run001/worker1"]
  files :=
    [ { path := "/data/run001.mod", lines := ["$PROBLEM one", "$DATA ../acop.csv"], mode := 420 },
      { path := "/data/run001/run001.mod", lines := ["$PROBLEM one", "$DATA ../../acop.csv"],
        mode := 420 },
      { path := "/data/run001/run001.lst", lines := ["report"], mode := 420 },
      { path := "/data/run001/fort.2001", lines := [], mode := 420 } ]

/-- A file system in which the working directory of the sample job exists and
holds a read-only copy of the job file from an interrupted staging. -/
def fsReadOnlyStaged : MemFs where
  dirs := ["/data", "/data/run001"]
  files :=
    [ { path := "/data/run001.mod", lines := ["$PROBLEM one", "$DATA ../acop.csv"], mode := 420 },
      { path := "/data/run001/run001.mod", lines := ["$PROBLEM old"], mode := 292 } ]

/-- The sample descriptor with a version mapping whose only entry, `nm74`, has
no install home. -/
def sampleHomelessModel : NonMemModel :=
  { sampleModel with
    Configuration :=
      { sampleConfig with
        Nonmem := [("nm74", { Home := "", Executable := "nmfe74", Default := true })] } }

/-- Whether a suffix can neither complete nor contain an occurrence of `run`:
it does not begin with `un` or `n` and `run` does not occur in it. -/
def plainSuffix (sfx : List Char) : Bool :=
  !startsWithChars ['u', 'n'] sfx && !startsWithChars ['n'] sfx &&
    !containsChars ['r', 'u', 'n'] sfx

/-- Whether an extension is non-empty and neither begins nor ends with white space. -/
def solidExtension (ext : List Char) : Bool :=
  match ext.head?, ext.getLast? with
  | some a, some z => !isSpace a && !isSpace z
  | _, _ => false

/-- The sample descriptor with copy level 2. -/
def sampleCopyLevelTwoModel : NonMemModel :=
  { sampleModel with Configuration := { sampleConfig with CopyLvl := 2 } }

/-- The descriptor of a job file named `nonmem.mod`. -/
def sampleNonmemNamedModel : NonMemModel :=
  { sampleModel with
    Model := "nonmem.mod", Path := "/data/nonmem.mod", FileName := "nonmem",
    OutputDir := "/data/nonmem" }

/-! ## Next run directory (package `runner`) -/

/-- The record `runner.NextDirSuggestion`, built positionally by
`FindNextEstDirNum`; its declaration is not among the sources, so the three
fields carry the names the specification gives them. -/
structure NextDirSuggestion where
  suggestedName : String
  needsRenumbering : Bool
  isFirstRun : Bool
  deriving DecidableEq, Repr

/-- The 64-bit value of an integer: Go `int` arithmetic wraps around at
`2^63`. -/
def wrapInt64 (x : Int) : Int :=
  (x + 2 ^ 63) % 2 ^ 64 - 2 ^ 63

/-- Functions of other packages that `FindNextEstDirNum` calls, with what their
Go types say: `strconv.Atoi` returns an `int`, and `utils.PadNum` takes an
`int`, so that only the 64-bit value of its first argument counts. -/
structure RunnerLib where
  /-- The call `utils.PadNum(n, padding)`. -/
  padNum : Int → Int → String
  /-- The call `strconv.Atoi`: the value and the error. -/
  atoi : String → Int × Option String
  /-- The value of `strconv.Atoi` is a 64-bit `int`. -/
  atoi_int : ∀ s, -(2 ^ 63 : Int) ≤ (atoi s).1 ∧ (atoi s).1 < 2 ^ 63
  /-- The first argument of `utils.PadNum` is a 64-bit `int`. -/
  padNum_int : ∀ n padding, padNum n padding = padNum (wrapInt64 n) padding

/-- Go `filepath.Base` with `/` as the separator: trailing separators are
dropped and the last element is returned; `.` for the empty path and `/` for a
path of separators only. -/
def filepathBase (path : String) : String :=
  if path = "" then "."
  else
    let stripped := (path.data.reverse.dropWhile (fun c => c == '/')).reverse
    let last := (stripped.reverse.takeWhile (fun c => c != '/')).reverse
    if last = [] then "/" else ⟨last⟩

/-- Go `strings.TrimPrefix(s, lead)`. -/
def stringsTrimPrefix (s lead : String) : String :=
  if startsWithChars lead.data s.data then ⟨s.data.drop lead.data.length⟩ else s

/-- The local `modelNameEst` of `FindNextEstDirNum`: the base name of the model
file followed by `_est_`. -/
def modelNameEst (modelFile : String) : String :=
  stringsJoin [filepathBase modelFile, "_est_"] ""

/-- The first loop of `FindNextEstDirNum`: the run number of every directory
name that contains `modelNameEst`; the error of `strconv.Atoi` is dropped. -/
def existingRunNums (lib : RunnerLib) (est : String) : List String → List Int
  | [] => []
  | dirName :: rest =>
    if stringsContains dirName est then
      (lib.atoi (stringsTrimPrefix dirName est)).1 :: existingRunNums lib est rest
    else existingRunNums lib est rest

/-- The local `nextRunNum` of `FindNextEstDirNum`: one more than the last
element of the sorted run numbers, as a 64-bit `int`. -/
def nextRunNum (lib : RunnerLib) (modelFile : String) (dirNames : List String) : Int :=
  let sortedRunNums :=
    (existingRunNums lib (modelNameEst modelFile) dirNames).insertionSort (fun a b => a ≤ b)
  wrapInt64 (sortedRunNums.getLast?.getD 0 + 1)

/-- The Go function `FindNextEstDirNum`. -/
def FindNextEstDirNum (lib : RunnerLib) (modelFile : String) (dirNames : List String)
    (padding : Int) : NextDirSuggestion :=
  let est := modelNameEst modelFile
  let existing := existingRunNums lib est dirNames
  if existing.length = 0 then
    { suggestedName := stringsJoin [est, lib.padNum 1 padding] ""
      needsRenumbering := false
      isFirstRun := true }
  else
    let sortedRunNums := existing.insertionSort (fun a b => a ≤ b)
    let next := nextRunNum lib modelFile dirNames
    let reOrg := decide (next ≠ wrapInt64 ((sortedRunNums.length : Int) + 1))
    { suggestedName := stringsJoin [est, lib.padNum next padding] ""
      needsRenumbering := reOrg
      isFirstRun := false }

/-- The value of a text of decimal digits, read from the left onto `acc`; none
when a character is not a digit. -/
def digitsValue : List Char → Nat → Option Nat
  | [], acc => some acc
  | c :: cs, acc =>
    if '0'.toNat ≤ c.toNat ∧ c.toNat ≤ '9'.toNat then
      digitsValue cs (acc * 10 + (c.toNat - '0'.toNat))
    else none

/-- Go `strconv.Atoi` for a 64-bit `int`: an optional sign and decimal digits;
0 and an error for any other text, the nearest bound and an error for a value
out of range. -/
def atoiDecimal (s : String) : Int × Option String :=
  let signed : Bool × List Char :=
    match s.data with
    | '-' :: rest => (true, rest)
    | '+' :: rest => (false, rest)
    | rest => (false, rest)
  if signed.2 = [] then (0, some ("strconv.Atoi: parsing " ++ s ++ ": invalid syntax"))
  else
    match digitsValue signed.2 0 with
    | none => (0, some ("strconv.Atoi: parsing " ++ s ++ ": invalid syntax"))
    | some n =>
      if signed.1 then
        if n > 2 ^ 63 then
          (-(2 ^ 63 : Int), some ("strconv.Atoi: parsing " ++ s ++ ": value out of range"))
        else (-(n : Int), none)
      else if n ≥ 2 ^ 63 then
        ((2 ^ 63 : Int) - 1, some ("strconv.Atoi: parsing " ++ s ++ ": value out of range"))
      else ((n : Int), none)

/-- Modelled from the spec: `utils.PadNum` is not among the sources. The number
in decimal, filled with zeros on the left up to a width of `padding`
characters (padding 2 renders 1 as `01` and 3 as `03`); a negative number
carries its sign in front of the zeros. -/
def padNumDecimal (n padding : Int) : String :=
  let digits := (Nat.repr n.natAbs).data
  if n < 0 then
    ⟨'-' :: (List.replicate (padding - 1 - digits.length).toNat '0' ++ digits)⟩
  else ⟨List.replicate (padding - digits.length).toNat '0' ++ digits⟩

/-- The functions `FindNextEstDirNum` calls, for concrete evaluation. -/
def decimalLib : RunnerLib where
  padNum n padding := padNumDecimal (wrapInt64 n) padding
  atoi := atoiDecimal
  atoi_int s := by
    unfold atoiDecimal
    generalize (match s.data with
      | '-' :: rest => (true, rest)
      | '+' :: rest => (false, rest)
      | rest => (false, rest) : Bool × List Char) = signed
    by_cases hempty : signed.2 = []
    · simp [hempty]
    · cases hdigits : digitsValue signed.2 0 with
      | none => simp [hempty, hdigits]
      | some n =>
        by_cases hneg : signed.1 = true
        · by_cases hbig : 9223372036854775808 < n
          · simp [hempty, hdigits, hneg, hbig]
          · simp [hempty, hdigits, hneg, hbig]
            omega
        · by_cases hbig : 9223372036854775808 ≤ n
          · simp [hempty, hdigits, hneg, hbig]
          · simp [hempty, hdigits, hneg, hbig]
            omega
  padNum_int n padding := by
    have h : wrapInt64 (wrapInt64 n) = wrapInt64 n := by
      unfold wrapInt64
      omega
    simp only [h]

/-- The sample descriptor with copy level 0. -/
def sampleCopyLevelZeroModel : NonMemModel :=
  { sampleModel with Configuration := { sampleConfig with CopyLvl := 0 } }

/-! ## Templates (the fragment of `text/template` that `cmd/nonmem.go` uses) -/

/-- A node of a parsed template: literal text, or an action `{{ .Field }}`. -/
inductive TemplateNode where
  | text (s : String)
  | field (name : String)
  deriving DecidableEq, Repr

/-- Whether a character can stand in a field name. -/
def isFieldChar (c : Char) : Bool :=
  ('a'.toNat ≤ c.toNat && c.toNat ≤ 'z'.toNat) || ('A'.toNat ≤ c.toNat && c.toNat ≤ 'Z'.toNat) ||
    ('0'.toNat ≤ c.toNat && c.toNat ≤ '9'.toNat) || c == '_'

/-- The node of an action with the given body: the body, without the blanks
around it, has to be a dot and a field name. -/
def actionNode (body : List Char) : Except String TemplateNode :=
  match ((body.dropWhile isSpace).reverse.dropWhile isSpace).reverse with
  | '.' :: name =>
    if !name.isEmpty && name.all isFieldChar then .ok (.field ⟨name⟩)
    else .error "template: unexpected token in action"
  | _ => .error "template: unexpected token in action"

/-- One pass over the template text: `inAction` tells whether an action is
open, `cur` is the text or action body read so far. -/
def scanTemplate : List Char → Bool → List Char → Except String (List TemplateNode)
  | [], false, cur => .ok (if cur.isEmpty then [] else [.text ⟨cur⟩])
  | [], true, _ => .error "template: unclosed action"
  | [c], false, cur => .ok [.text ⟨cur ++ [c]⟩]
  | [_], true, _ => .error "template: unclosed action"
  | c :: d :: rest, false, cur =>
    if c = '{' ∧ d = '{' then
      match scanTemplate rest true [] with
      | .error e => .error e
      | .ok nodes => .ok (if cur.isEmpty then nodes else .text ⟨cur⟩ :: nodes)
    else scanTemplate (d :: rest) false (cur ++ [c])
  | c :: d :: rest, true, cur =>
    if c = '}' ∧ d = '}' then
      match actionNode cur, scanTemplate rest false [] with
      | .ok node, .ok nodes => .ok (node :: nodes)
      | .error e, _ => .error e
      | _, .error e => .error e
    else scanTemplate (d :: rest) true (cur ++ [c])

/-- The call `template.New(name).Parse(text)` for a template of text and field
actions. -/
def parseTemplate (text : String) : Except String (List TemplateNode) :=
  scanTemplate text.data false []

/-- The value of a field of the data a template is executed with. -/
def lookupField (name : String) : List (String × String) → Option String
  | [] => none
  | (k, v) :: rest => if k = name then some v else lookupField name rest

/-- The call `t.Execute(buf, data)`: every text node is copied, every field
action is replaced by the printed value of the field; a field the data does
not have is an error. -/
def executeNodes (data : List (String × String)) : List TemplateNode → Except String String
  | [] => .ok ""
  | .text s :: rest =>
    match executeNodes data rest with
    | .error e => .error e
    | .ok out => .ok (s ++ out)
  | .field name :: rest =>
    match lookupField name data, executeNodes data rest with
    | some v, .ok out => .ok (v ++ out)
    | none, _ => .error ("template: can't evaluate field " ++ name)
    | _, .error e => .error e

/-- Parsing a template text and executing it with the data. -/
def renderTemplate (text : String) (data : List (String × String)) : Except String String :=
  match parseTemplate text with
  | .error e => .error e
  | .ok nodes => executeNodes data nodes

/-- How a template prints an `int`: in decimal, a minus sign for a negative
number. -/
def formatInt (n : Int) : String :=
  toString n

/-- The constant `nonmemParaFiletemplate`. -/
def nonmemParaFiletemplate : String :=
  "$GENERAL\nNODES=\x7b\x7b .TotalNodes \x7d\x7d PARSE_TYPE=2 TIMEOUTI=100 " ++
  "TIMEOUT=\x7b\x7b .CompletionTimeout \x7d\x7d PARAPRINT=0 TRANSFER_TYPE=1\n$COMMANDS\n" ++
  "1: \x7b\x7b .MpiExecPath \x7d\x7d -wdir \"$PWD\" -n \x7b\x7b .HeadNodes \x7d\x7d ./nonmem $*\n" ++
  "2:-wdir \"$PWD\" -n \x7b\x7b .WorkerNodes \x7d\x7d ./nonmem -wnf\n$DIRECTORIES\n1:NONE\n" ++
  "2-[nodes]:worker\x7b#-1\x7d"

/-- The Go struct `nonmemParallelDirective`. -/
structure nonmemParallelDirective where
  TotalNodes : Int
  CompletionTimeout : Int
  MpiExecPath : String
  HeadNodes : Int
  WorkerNodes : Int
  deriving DecidableEq, Repr

/-- The fields of a `nonmemParallelDirective` as a template sees them. -/
def nonmemParallelDirective.fields (nmp : nonmemParallelDirective) : List (String × String) :=
  [ ("TotalNodes", formatInt nmp.TotalNodes),
    ("CompletionTimeout", formatInt nmp.CompletionTimeout),
    ("MpiExecPath", nmp.MpiExecPath),
    ("HeadNodes", formatInt nmp.HeadNodes),
    ("WorkerNodes", formatInt nmp.WorkerNodes) ]

/-- The Go function `generateParaFile`: the rendered text, or the error of
parsing or executing the template. -/
def generateParaFile (l : NonMemModel) : Except String String :=
  let nmp : nonmemParallelDirective :=
    { TotalNodes := l.Configuration.Parallel.Nodes
      HeadNodes := 1
      WorkerNodes := l.Configuration.Parallel.Nodes - 1
      CompletionTimeout := l.Configuration.Parallel.Timeout
      MpiExecPath := l.Configuration.Parallel.MPIExecPath }
  match parseTemplate nonmemParaFiletemplate with
  | .error err => .error err
  | .ok parsed => executeNodes nmp.fields parsed

/-! ## Job descriptor builder and argument resolver -/

/-- What `NewNonMemModel` takes from its surroundings: the constant `VERSION`,
the working directory, the file system and the configuration loaded through
`viper`. The configuration calls take the path of the configuration file. -/
structure BuilderEnv where
  /-- The constant `VERSION`. -/
  version : String
  /-- Go `filepath.IsAbs`. -/
  isAbs : String → Bool
  /-- The call `os.Getwd()`: the directory and the error. -/
  getwd : String × Option String
  /-- The call `fs.Stat(path)` followed by `fi.Name()`. -/
  statName : String → Except String String
  /-- The error of `os.Open` on the configuration file. -/
  openConfig : String → Option String
  /-- The error of `viper.ReadConfig`. -/
  readConfig : String → Option String
  /-- The call `viper.GetString("outputDir")` once the configuration is read. -/
  outputDir : String → String
  /-- Parsing the output-directory template and executing it with `Name`. -/
  renderOutputDir : String → String → Except String String
  /-- The call `configlib.UnmarshalViper()` once the configuration is read. -/
  unmarshalViper : String → Config

/-- The zero value of `configlib.Config`; it also stands for the nil
`Configuration` of a descriptor that only carries an error. -/
def zeroConfig : Config where
  Nonmem := []
  Parallel := { Parallel := false, Nodes := 0, Timeout := 0, MPIExecPath := "", Parafile := "" }
  CleanLvl := 0
  CopyLvl := 0
  Overwrite := false

/-- The zero value of `NonMemModel`. -/
def zeroNonMemModel : NonMemModel where
  BBIVersion := ""
  Model := ""
  Path := ""
  DataPath := ""
  DataMD5 := ""
  FileName := ""
  Extension := ""
  OriginalPath := ""
  OutputDir := ""
  Configuration := zeroConfig
  Error := none

/-- Lines 634 to 643 of `NewNonMemModel`: `FileName` and `Extension` taken from the
pieces of `strings.Split(lm.Model, ".")`. -/
def splitModelName (model : String) : String × String :=
  let modelPieces := stringsSplit model '.'
  if modelPieces.length > 1 then (modelPieces.headD "", (modelPieces.get? 1).getD "")
  else (model, "")

/-- Line 646 of `NewNonMemModel`:
`strings.Replace(lm.Path, "/"+lm.Model, "", 1)`. -/
def originalPathOf (path model : String) : String :=
  stringsReplaceFirst path ("/" ++ model) ""

/-- Lines 614 to 622 of `NewNonMemModel`: the value of `lm.Path`. -/
def modelPath (lib : Lib) (env : BuilderEnv) (modelname : String) : String :=
  if env.isAbs modelname then modelname else lib.pathJoin [env.getwd.1, modelname]

/-- The Go function `NewNonMemModel`: the descriptor, or the message of the
`log.Fatal` that ends the process. `filepath.Join` is `path.Join`, the separator
being `/`. -/
def NewNonMemModel (lib : Lib) (env : BuilderEnv) (modelname : String) :
    Except String NonMemModel :=
  let lm : NonMemModel :=
    { zeroNonMemModel with
      BBIVersion := env.version
      Error := if env.isAbs modelname then none else env.getwd.2
      Path := modelPath lib env modelname }
  match env.statName lm.Path with
  | .error err => .ok { zeroNonMemModel with Error := some err }
  | .ok name =>
    let pieces := splitModelName name
    let originalPath := originalPathOf lm.Path name
    let configPath := lib.pathJoin [originalPath, "babylon.yaml"]
    match env.openConfig configPath with
    | some _ =>
      .error ("A failure occurred accessing the initial configuration at " ++ configPath)
    | none =>
      match env.readConfig configPath with
      | some err =>
        .error ("Viper had issues parsing the configuration file provided. Details are: " ++ err)
      | none =>
        match env.renderOutputDir (env.outputDir configPath) pieces.1 with
        | .error err => .ok { zeroNonMemModel with Error := some err }
        | .ok rendered =>
          let configuration := env.unmarshalViper configPath
          if configuration.Nonmem.length = 0 then
            .error ("No nonmem configurations were loaded in from file. Please make sure the " ++
              "nonmem key and its children are present in babylon.yaml")
          else
            .ok { lm with
              Model := name
              FileName := pieces.1
              Extension := pieces.2
              OriginalPath := originalPath
              OutputDir := lib.pathJoin [originalPath, rendered]
              Configuration := configuration }

/-- What `nonmemModelsFromArguments` takes from package `utils`. -/
structure ResolverEnv where
  /-- The call `utils.FileAndExt(arg)`. -/
  fileAndExt : String → String × String
  /-- The call `utils.IsDir(arg, AppFs)`. -/
  isDir : String → Bool × Option String
  /-- The call `utils.ListModels(arg, ".mod", AppFs)`. -/
  listModels : String → String → List String × Option String
  /-- The call `utils.ExpandNameSequence(arg)`. -/
  expandNameSequence : String → List String × Option String

/-- Whether a closing bracket follows before the end of the line. -/
def closesOnLine : List Char → Bool
  | [] => false
  | c :: cs => if c = ']' then true else if c = '\n' then false else closesOnLine cs

/-- Whether the text has an opening bracket with a closing bracket after it on
the same line. -/
def hasBracketPairChars : List Char → Bool
  | [] => false
  | c :: cs => (c == '[' && closesOnLine cs) || hasBracketPairChars cs

/-- The test `len(r.FindAllStringSubmatch(arg, 1)) > 0` for the pattern
`(.*)?\[(.*)\](.*)?`, where `.` is any character but a line feed. -/
def hasBracketPair (arg : String) : Bool :=
  hasBracketPairChars arg.data

/-- The loop of `nonmemModelsFromArguments` over the arguments: `output` holds
the paths handed to `NewNonMemModel` so far; an argument that cannot be listed
or expanded is skipped (`continue`). -/
def resolveArguments (lib : Lib) (env : ResolverEnv) : List String → List String → List String
  | [], output => output
  | arg :: rest, output =>
    if (env.fileAndExt arg).2 = "" ∨ arg = "." then
      match env.isDir arg with
      | (_, some _) => resolveArguments lib env rest output
      | (false, none) => resolveArguments lib env rest output
      | (true, none) =>
        match env.listModels arg ".mod" with
        | (_, some _) => resolveArguments lib env rest output
        | (modelsInDir, none) =>
          resolveArguments lib env rest
            (output ++ modelsInDir.map (fun model => lib.pathJoin [arg, model]))
    else if hasBracketPair arg then
      match env.expandNameSequence arg with
      | (_, some _) => resolveArguments lib env rest output
      | (pat, none) => resolveArguments lib env rest (output ++ pat)
    else resolveArguments lib env rest (output ++ [arg])

/-- The descriptors of a list of paths, in order; the first `log.Fatal` ends the
process. -/
def buildModels (lib : Lib) (benv : BuilderEnv) : List String → Except String (List NonMemModel)
  | [] => .ok []
  | p :: rest =>
    match NewNonMemModel lib benv p, buildModels lib benv rest with
    | .error msg, _ => .error msg
    | .ok _, .error msg => .error msg
    | .ok lm, .ok models => .ok (lm :: models)

/-- The Go function `nonmemModelsFromArguments`: `NewNonMemModel` applied to each
resolved path, in order. -/
def nonmemModelsFromArguments (lib : Lib) (benv : BuilderEnv) (env : ResolverEnv)
    (args : List String) : Except String (List NonMemModel) :=
  buildModels lib benv (resolveArguments lib env args [])

/-- The expansion of one argument, as the specification words it: a directory
(no extension, or `.`) gives its `.mod` files joined to it, nothing when it is
not a directory or cannot be listed; an argument with a bracket pair gives its
range expansion, nothing when the expansion fails; any other argument gives
itself. -/
def expandArgument (lib : Lib) (env : ResolverEnv) (arg : String) : List String :=
  if (env.fileAndExt arg).2 = "" ∨ arg = "." then
    if (env.isDir arg).2 = none ∧ (env.isDir arg).1 = true ∧ (env.listModels arg ".mod").2 = none
    then (env.listModels arg ".mod").1.map (fun model => lib.pathJoin [arg, model])
    else []
  else if hasBracketPair arg then
    if (env.expandNameSequence arg).2 = none then (env.expandNameSequence arg).1 else []
  else [arg]

/-- A builder environment over the in-memory file system: every file can be
stat-ed, the configuration file has to exist, the output directory template is
the base name, the loaded configuration is `cfg`. -/
def memBuilderEnv (fs : MemFs) (cfg : Config) : BuilderEnv where
  version := "2.0.0"
  isAbs p := startsWithChars ['/'] p.data
  getwd := ("/data", none)
  statName p :=
    match fs.lookup p with
    | some _ => .ok (filepathBase p)
    | none => .error ("stat " ++ p ++ ": no such file or directory")
  openConfig p :=
    match fs.lookup p with
    | some _ => none
    | none => some ("open " ++ p ++ ": no such file or directory")
  readConfig _ := none
  outputDir _ := "\x7b\x7b .Name \x7d\x7d"
  renderOutputDir text name := renderTemplate text [("Name", name)]
  unmarshalViper _ := cfg

/-- A file system with a job file whose name has two dots, a job file in a
directory named after it, and the configuration files next to them. -/
def fsDottedNames : MemFs where
  dirs := ["/data", "/data/run001.mod.d"]
  files :=
    [ { path := "/data/run001.v2.mod", lines := ["$PROBLEM two"], mode := 420 },
      { path := "/data/run001.mod", lines := ["$PROBLEM one"], mode := 420 },
      { path := "/data/babylon.yaml", lines := [], mode := 420 },
      { path := "/data/run001.mod.d/run001.mod", lines := ["$PROBLEM one"], mode := 420 },
      { path := "/data/run001.mod.d/babylon.yaml", lines := [], mode := 420 } ]

/-- The descriptor that `NewNonMemModel` builds for `/data/run001.v2.mod`. -/
def sampleDottedModel : NonMemModel :=
  { sampleModel with
    Model := "run001.v2.mod", Path := "/data/run001.v2.mod", FileName := "run001",
    Extension := "v2" }

/-- A resolver environment for concrete evaluation: the extension is the text
from the last dot on, `/data` is the only directory and holds two job files,
and the only range that expands is `run[001:003].mod`. -/
def sampleResolverEnv : ResolverEnv where
  fileAndExt arg :=
    let tail := (arg.data.reverse.takeWhile (fun c => c != '.')).reverse
    if arg.data.contains '.' then (⟨arg.data.take (arg.data.length - tail.length - 1)⟩, ⟨'.' :: tail⟩)
    else (arg, "")
  isDir arg :=
    if arg = "/data" then (true, none)
    else if arg = "/missing" then (false, some "stat /missing: no such file or directory")
    else (false, none)
  listModels arg _ := if arg = "/data" then (["run001.mod", "run002.mod"], none) else ([], none)
  expandNameSequence arg :=
    if arg = "run[001:003].mod" then (["run001.mod", "run002.mod", "run003.mod"], none)
    else ([], some "malformed range")

/-! ## Theorems -/

/-- Membership in an exception list, as the loop of `isFilenameInExceptions` decides it. -/
theorem isFilenameInExceptions_iff (haystack : List String) (needle : String) :
    isFilenameInExceptions haystack needle = true ↔ needle ∈ haystack := by
  induction haystack with
  | nil => simp [isFilenameInExceptions]
  | cons v rest ih =>
    by_cases h : v = needle
    · simp [isFilenameInExceptions, h]
    · have h2 : ¬ needle = v := fun e => h e.symm
      simp [isFilenameInExceptions, h, h2, ih]

/-- Without parallel execution, no file name of the exception list is in
`FilesToRemove`. -/
theorem filesToCleanup_sequential_honors_exceptions {σ : Type} (ops : FsOps σ) (fs : σ)
    (model : NonMemModel) (exceptions : List String) (name : String)
    (hpar : model.Configuration.Parallel.Parallel = false) (hex : name ∈ exceptions) :
    ∀ t ∈ (filesToCleanup ops fs model exceptions).FilesToRemove, t.File ≠ name := by
  intro t ht hname
  have hmem : t ∈ ((getCleanableFileList model.FileName model.Configuration.CleanLvl).filter
      (fun v => !isFilenameInExceptions exceptions v)).map
      (fun v => newTargetFile v model.Configuration.CleanLvl) := by
    simpa [filesToCleanup, hpar] using ht
  obtain ⟨v, hv, hvt⟩ := List.mem_map.1 hmem
  have hkeep := (List.mem_filter.1 hv).2
  have hfile : v = name := by
    rw [← hname, ← hvt]
    rfl
  have hin : isFilenameInExceptions exceptions v = true :=
    (isFilenameInExceptions_iff exceptions v).2 (hfile ▸ hex)
  simp [hin] at hkeep

/-- With parallel execution, every entry of the working directory that matches
one of the two patterns is in `FilesToRemove`, whatever the exception list is. -/
theorem filesToCleanup_parallel_keeps_matches {σ : Type} (ops : FsOps σ) (fs : σ)
    (model : NonMemModel) (exceptions : List String) (name : String)
    (variant : List CharClass)
    (hpar : model.Configuration.Parallel.Parallel = true)
    (hentry : name ∈ (ops.readDir fs model.OutputDir).1)
    (hvariant : variant ∈ parallelRegexesToRemove)
    (hmatch : regexMatchString variant name = true) :
    newTargetFile name model.Configuration.CleanLvl ∈
      (filesToCleanup ops fs model exceptions).FilesToRemove := by
  simp only [filesToCleanup, hpar, if_true, List.mem_append]
  right
  simp only [List.mem_flatten, List.mem_map]
  exact ⟨_, ⟨variant, hvariant, rfl⟩,
    List.mem_map.2 ⟨name, List.mem_filter.2 ⟨hentry, hmatch⟩, rfl⟩⟩

/-- Claim C1, at a failing input: with parallel execution enabled, the exception
list `["worker1"]` and a working directory that holds `worker1`, the name
`worker1` is in the exception list and still in `FilesToRemove` of
`filesToCleanup`. -/
theorem filesToCleanup_parallel_ignores_exceptions :
    "worker1" ∈ ["worker1"] ∧
    (memOps.readDir fsAfterParallelRun sampleParallelModel.OutputDir).1 =
      ["worker1", "run001.mod", "run001.lst", "fort.2001"] ∧
    newTargetFile "worker1" 1 ∈
      (filesToCleanup memOps fsAfterParallelRun sampleParallelModel ["worker1"]).FilesToRemove := by
  decide

/-- Claim C2: `doesDirectoryContainOutputFiles` returns true when listing the
directory fails; when listing succeeds it returns true exactly when some entry
of the directory is a member of `getCopiableFileList(modelname, 3, path)`. -/
theorem doesDirectoryContainOutputFiles_spec {σ : Type} (lib : Lib) (ops : FsOps σ) (fs : σ)
    (path modelname : String) :
    ((ops.readDir fs path).2 ≠ none →
      doesDirectoryContainOutputFiles lib ops fs path modelname = true) ∧
    ((ops.readDir fs path).2 = none →
      (doesDirectoryContainOutputFiles lib ops fs path modelname = true ↔
        ∃ v ∈ (ops.readDir fs path).1, v ∈ getCopiableFileList lib ops fs modelname 3 path) ∧
      (doesDirectoryContainOutputFiles lib ops fs path modelname = false ↔
        ∀ v ∈ (ops.readDir fs path).1, v ∉ getCopiableFileList lib ops fs modelname 3 path)) := by
  unfold doesDirectoryContainOutputFiles
  rcases h : ops.readDir fs path with ⟨contents, err⟩
  cases err with
  | some e => simp
  | none => simp

/-- Claim C3: when the working directory exists, `Overwrite` is false and
`doesDirectoryContainOutputFiles` is true for it, `createChildDirectories`
returns the conflict error, whose message contains the working directory, and
leaves the file system as it was: nothing removed, copied or written, and
nothing sent to the error channel. -/
theorem createChildDirectories_conflict {σ : Type} (lib : Lib) (ops : FsOps σ) (git : Bool)
    (fs : σ) (l : NonMemModel) (sge : Bool)
    (hdir : ops.dirExists fs l.OutputDir = true)
    (hover : l.Configuration.Overwrite = false)
    (hout : doesDirectoryContainOutputFiles lib ops fs l.OutputDir l.Model = true) :
    (createChildDirectories lib ops git fs l sge).err =
      some ("The target directory, " ++ l.OutputDir ++
        " already exist, but we are configured not to overwrite. Invalid configuration / run state") ∧
    (createChildDirectories lib ops git fs l sge).fs = fs ∧
    (createChildDirectories lib ops git fs l sge).recorded = [] := by
  simp [createChildDirectories, hdir, hover, hout, conflictMessage]

/-- Claim C3 at the sample job: its working directory exists and holds the
report `run001.lst` of an earlier run. -/
theorem createChildDirectories_conflict_witness :
    memOps.dirExists fsAfterParallelRun sampleModel.OutputDir = true ∧
    sampleModel.Configuration.Overwrite = false ∧
    doesDirectoryContainOutputFiles plainLib memOps fsAfterParallelRun
      sampleModel.OutputDir sampleModel.Model = true ∧
    (createChildDirectories plainLib memOps true fsAfterParallelRun sampleModel false).err =
      some ("The target directory, /data/run001 already exist, but we are configured not " ++
        "to overwrite. Invalid configuration / run state") ∧
    (createChildDirectories plainLib memOps true fsAfterParallelRun sampleModel false).fs =
      fsAfterParallelRun :=
  have h := createChildDirectories_conflict plainLib memOps true fsAfterParallelRun sampleModel
    false (by decide) (by decide) (by decide)
  ⟨by decide, by decide, by decide, h.1.trans (by decide), h.2.1⟩

/-- The error returned by `copyFileToDestination` is decided by reading and
stat-ing the source job file alone: it is non-nil exactly when one of these two
fails, whatever `fs.MkdirAll` and `afero.WriteFile` return. -/
theorem copyFileToDestination_error_iff {σ : Type} (lib : Lib) (ops : FsOps σ) (fs : σ)
    (l : NonMemModel) (modifyPath : Bool) :
    (copyFileToDestination lib ops fs l modifyPath).2 ≠ none ↔
      ((ops.readLines (stateBeforeRead ops fs l) l.Path).2 ≠ none ∨
        ∃ err, ops.stat (stateBeforeRead ops fs l) l.Path = .error err) := by
  simp only [copyFileToDestination]
  rcases hread : ops.readLines (stateBeforeRead ops fs l) l.Path with ⟨sourceLines, rerr⟩
  cases rerr with
  | some e => simp
  | none =>
    cases hstat : ops.stat (stateBeforeRead ops fs l) l.Path with
    | error err => simp
    | ok mode => simp

/-- A non-nil error of `copyFileToDestination` is returned by the staging part of
`createChildDirectories`. -/
theorem stageIntoDirectory_err_of_copy_err {σ : Type} (lib : Lib) (ops : FsOps σ) (git : Bool)
    (fs : σ) (l : NonMemModel) (sge : Bool)
    (hcopy : (copyFileToDestination lib ops fs l true).2 ≠ none) :
    (stageIntoDirectory lib ops git fs l sge).err ≠ none := by
  unfold stageIntoDirectory
  rcases h : copyFileToDestination lib ops fs l true with ⟨fs1, err⟩
  cases err with
  | some e => simp
  | none => simp [h] at hcopy

/-- When the source job file can be read in no file-system state,
`createChildDirectories` returns a non-nil error. -/
theorem createChildDirectories_err_of_unreadable {σ : Type} (lib : Lib) (ops : FsOps σ)
    (git : Bool) (fs : σ) (l : NonMemModel) (sge : Bool)
    (hread : ∀ s, (ops.readLines s l.Path).2 ≠ none) :
    (createChildDirectories lib ops git fs l sge).err ≠ none := by
  have hcopy : ∀ s, (copyFileToDestination lib ops s l true).2 ≠ none := fun s =>
    (copyFileToDestination_error_iff lib ops s l true).2 (Or.inl (hread _))
  unfold createChildDirectories
  split
  · split
    · rcases h : ops.removeAll fs l.OutputDir with ⟨fs1, err⟩
      cases err with
      | some e => simp
      | none => exact stageIntoDirectory_err_of_copy_err lib ops git fs1 l sge (hcopy fs1)
    · split
      · exact stageIntoDirectory_err_of_copy_err lib ops git fs l sge (hcopy fs)
      · simp
  · exact stageIntoDirectory_err_of_copy_err lib ops git fs l sge (hcopy fs)

/-- Claim C4, at a failing input: the staged copy cannot be written (the file
exists read-only), `afero.WriteFile` fails, and both `copyFileToDestination`
and `createChildDirectories` return a nil error; the stale copy stays. -/
theorem staging_write_failure_not_reported :
    (memOps.writeFile (stateBeforeRead memOps fsReadOnlyStaged sampleModel)
        (plainLib.pathJoin [sampleModel.OutputDir, sampleModel.Model])
        "$PROBLEM one\n$DATA ../acop.csv" 420).2 =
      some "open /data/run001/run001.mod: permission denied" ∧
    copyFileToDestination plainLib memOps fsReadOnlyStaged sampleModel true =
      (fsReadOnlyStaged, none) ∧
    (createChildDirectories plainLib memOps false fsReadOnlyStaged sampleModel false).err = none ∧
    (memOps.readLines
        (createChildDirectories plainLib memOps false fsReadOnlyStaged sampleModel false).fs
        "/data/run001/run001.mod").1 = ["$PROBLEM old"] := by
  decide

/-- The default loop returns either what it started with or the pair of the
entry that every default entry equals. -/
theorem findDefaultVersion_cases (v : NonMemDetail) (entries : List (String × NonMemDetail))
    (hall : ∀ e ∈ entries, e.2.Default = true → e.2 = v) (found : String × String) :
    findDefaultVersion entries found = found ∨
      findDefaultVersion entries found = (v.Home, v.Executable) := by
  induction entries generalizing found with
  | nil => exact Or.inl rfl
  | cons e rest ih =>
    obtain ⟨k, w⟩ := e
    have hrest : ∀ e ∈ rest, e.2.Default = true → e.2 = v := fun e he =>
      hall e (List.mem_cons_of_mem _ he)
    by_cases hw : w.Default = true
    · have hwv : w = v := hall (k, w) (List.mem_cons_self _ _) hw
      subst hwv
      rcases ih hrest (w.Home, w.Executable) with h | h
      · right
        simp [findDefaultVersion, hw, h]
      · right
        simp [findDefaultVersion, hw, h]
    · simpa [findDefaultVersion, hw] using ih hrest found

/-- With a default entry present and every default entry equal to `v`, the
default loop ends with the pair of `v`, wherever the entry stands in the
iteration order. -/
theorem findDefaultVersion_of_unique (v : NonMemDetail) (entries : List (String × NonMemDetail))
    (hall : ∀ e ∈ entries, e.2.Default = true → e.2 = v)
    (hex : ∃ e ∈ entries, e.2.Default = true) (found : String × String) :
    findDefaultVersion entries found = (v.Home, v.Executable) := by
  induction entries generalizing found with
  | nil => simp at hex
  | cons e rest ih =>
    obtain ⟨k, w⟩ := e
    have hrest : ∀ e ∈ rest, e.2.Default = true → e.2 = v := fun e he =>
      hall e (List.mem_cons_of_mem _ he)
    by_cases hw : w.Default = true
    · have hwv : w = v := hall (k, w) (List.mem_cons_self _ _) hw
      subst hwv
      rcases findDefaultVersion_cases w rest hrest (w.Home, w.Executable) with h | h
      · simp [findDefaultVersion, hw, h]
      · simp [findDefaultVersion, hw, h]
    · have hex2 : ∃ e ∈ rest, e.2.Default = true := by
        obtain ⟨e, he, hd⟩ := hex
        rcases List.mem_cons.1 he with rfl | he
        · exact absurd hd hw
        · exact ⟨e, he, hd⟩
      simpa [findDefaultVersion, hw] using ih hrest hex2 found

/-- Claim C5: with no version tag requested, a version mapping in which exactly
one entry is flagged default, that entry having a non-empty install home,
resolves to that entry: the command is `path.Join(home, "run", executable)` of
the default entry followed by a space and the joined arguments, whatever the
other entries and the iteration order are. -/
theorem buildNonMemCommandString_default (lib : Lib) (l : NonMemModel)
    (key : String) (v : NonMemDetail)
    (hmem : (key, v) ∈ l.Configuration.Nonmem)
    (hdef : v.Default = true)
    (honly : ∀ e ∈ l.Configuration.Nonmem, e.2.Default = true → e = (key, v))
    (hhome : v.Home ≠ "") :
    buildNonMemCommandString lib "" l =
      .ok (lib.pathJoin [v.Home, "run", v.Executable] ++ " " ++
        stringsJoin (nonMemCommandArgs lib l) " ") := by
  have hfound : findDefaultVersion l.Configuration.Nonmem ("", "") = (v.Home, v.Executable) :=
    findDefaultVersion_of_unique v _ (fun e he hd => by rw [honly e he hd])
      ⟨(key, v), hmem, hdef⟩ _
  simp [buildNonMemCommandString, resolveNonMemVersion, hfound, hhome]

/-- Claim C5 at the sample configuration, whose default entry is `nm74`. -/
theorem buildNonMemCommandString_default_witness :
    buildNonMemCommandString plainLib "" sampleModel =
      .ok "/opt/NONMEM/nm74/run/nmfe74 /data/run001/run001.mod  /data/run001/run001.lst " :=
  (buildNonMemCommandString_default plainLib sampleModel "nm74"
    { Home := "/opt/NONMEM/nm74", Executable := "nmfe74", Default := true }
    (by decide) (by decide) (by decide) (by decide)).trans (by decide)

/-- Claim C6 as stated fails: the requested tag `nm74` is present in the
version mapping, and `buildNonMemCommandString` still ends the process, because
the entry has an empty install home. -/
theorem buildNonMemCommandString_present_tag_fatal :
    lookupVersion "nm74" sampleHomelessModel.Configuration.Nonmem =
      some { Home := "", Executable := "nmfe74", Default := true } ∧
    buildNonMemCommandString plainLib "nm74" sampleHomelessModel =
      .error "No version was supplied and no default value exists in the configset" := by
  decide

/-- Claim C6, amended: with a version tag requested, `buildNonMemCommandString`
ends the process exactly when the tag is absent from the version mapping or
its entry has an empty install home; when the tag is present with a non-empty
install home, the command uses that entry's home and executable, whichever
entry is flagged default. -/
theorem buildNonMemCommandString_requested (lib : Lib) (nmVersion : String) (l : NonMemModel)
    (hreq : nmVersion ≠ "") :
    ((∃ msg, buildNonMemCommandString lib nmVersion l = .error msg) ↔
      (lookupVersion nmVersion l.Configuration.Nonmem = none ∨
        ∃ v, lookupVersion nmVersion l.Configuration.Nonmem = some v ∧ v.Home = "")) ∧
    (∀ v, lookupVersion nmVersion l.Configuration.Nonmem = some v → v.Home ≠ "" →
      buildNonMemCommandString lib nmVersion l =
        .ok (lib.pathJoin [v.Home, "run", v.Executable] ++ " " ++
          stringsJoin (nonMemCommandArgs lib l) " ")) := by
  cases hlook : lookupVersion nmVersion l.Configuration.Nonmem with
  | none => simp [buildNonMemCommandString, resolveNonMemVersion, hreq, hlook]
  | some val =>
    by_cases hhome : val.Home = ""
    · simp [buildNonMemCommandString, resolveNonMemVersion, hreq, hlook, hhome]
    · refine ⟨?_, ?_⟩
      · simp [buildNonMemCommandString, resolveNonMemVersion, hreq, hlook, hhome]
      · intro v hv hvhome
        cases hv
        simp [buildNonMemCommandString, resolveNonMemVersion, hreq, hlook, hhome]

/-- Claim C6, amended, at the sample configuration: the tag `nm73` is requested
while `nm74` is the default entry. -/
theorem buildNonMemCommandString_requested_witness :
    "nm73" ≠ "" ∧
    buildNonMemCommandString plainLib "nm73" sampleModel =
      .ok "/opt/NONMEM/nm73/run/nmfe73 /data/run001/run001.mod  /data/run001/run001.lst " :=
  ⟨by decide,
    ((buildNonMemCommandString_requested plainLib "nm73" sampleModel (by decide)).2
      { Home := "/opt/NONMEM/nm73", Executable := "nmfe73", Default := false }
      (by decide) (by decide)).trans (by decide)⟩

/-- Claim C7: for a descriptor whose version entry resolves to `(home, binary)`,
the command is the executable path `path.Join(home, "run", binary)`, a space,
and the arguments joined by single spaces; the arguments are the staged job
file path, an empty string, the report path `FileName + ".lst"`, an empty string
and, exactly when parallel execution is enabled, the `-parafile=` reference to
`FileName + ".pnm"`. No `--nobuild` argument is appended. -/
theorem buildNonMemCommandString_format (lib : Lib) (nmVersion : String) (l : NonMemModel)
    (home binary : String)
    (hres : resolveNonMemVersion nmVersion l = .ok (home, binary)) :
    buildNonMemCommandString lib nmVersion l =
      .ok (lib.pathJoin [home, "run", binary] ++ " " ++
        stringsJoin
          ([ lib.pathJoin [l.OutputDir, l.Model], "",
             lib.pathJoin [l.OutputDir, l.FileName ++ ".lst"], "" ] ++
            (if l.Configuration.Parallel.Parallel = true then
              ["-parafile=" ++ lib.pathJoin [l.OutputDir, l.FileName ++ ".pnm"]]
            else []))
          " ") ∧
    nonMemCommandArgs lib l =
      [ lib.pathJoin [l.OutputDir, l.Model], "",
        lib.pathJoin [l.OutputDir, l.FileName ++ ".lst"], "" ] ++
        (if l.Configuration.Parallel.Parallel = true then
          ["-parafile=" ++ lib.pathJoin [l.OutputDir, l.FileName ++ ".pnm"]]
        else []) := by
  have hargs : nonMemCommandArgs lib l =
      [ lib.pathJoin [l.OutputDir, l.Model], "",
        lib.pathJoin [l.OutputDir, l.FileName ++ ".lst"], "" ] ++
        (if l.Configuration.Parallel.Parallel = true then
          ["-parafile=" ++ lib.pathJoin [l.OutputDir, l.FileName ++ ".pnm"]]
        else []) := by
    unfold nonMemCommandArgs
    by_cases hpar : l.Configuration.Parallel.Parallel = true <;> simp [hpar]
  refine ⟨?_, hargs⟩
  rw [← hargs]
  simp [buildNonMemCommandString, hres]

/-- Claim C7 at the sample descriptor with parallel execution enabled and the
default version entry. -/
theorem buildNonMemCommandString_format_witness :
    resolveNonMemVersion "" sampleParallelModel = .ok ("/opt/NONMEM/nm74", "nmfe74") ∧
    buildNonMemCommandString plainLib "" sampleParallelModel =
      .ok ("/opt/NONMEM/nm74/run/nmfe74 /data/run001/run001.mod  /data/run001/run001.lst  " ++
        "-parafile=/data/run001/run001.pnm") :=
  ⟨by decide,
    (buildNonMemCommandString_format plainLib "" sampleParallelModel "/opt/NONMEM/nm74" "nmfe74"
      (by decide)).1.trans (by decide)⟩

/-- Once every index from `K` on contributes nothing, collecting over more than `K`
indices gives what collecting over `K` indices gives. -/
theorem flatten_map_range_stable {α : Type} (g : Nat → List α) (K : Nat)
    (hK : ∀ i, K ≤ i → g i = []) (n : Nat) (hn : K ≤ n) :
    ((List.range n).map g).flatten = ((List.range K).map g).flatten := by
  induction n, hn using Nat.le_induction with
  | base => rfl
  | succ m hm ih =>
    rw [List.range_succ, List.map_append, List.flatten_append, ih]
    simp [hK m hm]

/-- The level loop over a table with no key from `K` on, run to a level of at
least `K - 1`, collects the keys below `K`. -/
theorem collectLevels_of_bound (files : Int → Option (List String)) (K : Nat)
    (hK : ∀ i : Nat, K ≤ i → files (i : Int) = none) (level : Int)
    (h : (K : Int) ≤ level + 1) :
    collectLevels files level =
      ((List.range K).map (fun i : Nat => (files (i : Int)).getD [])).flatten := by
  unfold collectLevels
  apply flatten_map_range_stable
  · intro i hi
    simp [hK i hi]
  · omega

/-- The level loop collects nothing for a level of at most 0 when key 0 is
not populated. -/
theorem collectLevels_nonpos (files : Int → Option (List String)) (h0 : files 0 = none)
    (level : Int) (h : level ≤ 0) : collectLevels files level = [] := by
  unfold collectLevels
  have hcases : (level + 1).toNat = 0 ∨ (level + 1).toNat = 1 := by omega
  rcases hcases with h | h <;> simp [h, h0, List.range_succ]

/-- A text that starts with `run` is `run` followed by the rest. -/
theorem startsWithChars_run (l : List Char) (h : startsWithChars ['r', 'u', 'n'] l = true) :
    ∃ rest, l = 'r' :: 'u' :: 'n' :: rest := by
  rcases l with _ | ⟨c, _ | ⟨d, _ | ⟨e, rest⟩⟩⟩
  · simp [startsWithChars] at h
  · simp [startsWithChars] at h
  · simp [startsWithChars] at h
  · simp [startsWithChars] at h
    obtain ⟨h1, h2, h3⟩ := h
    exact ⟨rest, by rw [h1, h2, h3]⟩

/-- A plain suffix after a non-empty text does not change whether the text
starts with `run`. -/
theorem startsWithChars_run_append (cs sfx : List Char) (hcs : cs ≠ [])
    (hs : plainSuffix sfx = true) :
    startsWithChars ['r', 'u', 'n'] (cs ++ sfx) = startsWithChars ['r', 'u', 'n'] cs := by
  simp [plainSuffix] at hs
  obtain ⟨⟨h1, h2⟩, _⟩ := hs
  rcases cs with _ | ⟨c, _ | ⟨d, _ | ⟨e, rest⟩⟩⟩
  · exact absurd rfl hcs
  · simp [startsWithChars, h1]
  · simp [startsWithChars, h2]
  · simp [startsWithChars]

/-- Replacing the first `run` leaves a text without `run` as it is. -/
theorem replaceFirstChars_of_not_contains (cs : List Char)
    (h : containsChars ['r', 'u', 'n'] cs = false) :
    replaceFirstChars ['r', 'u', 'n'] ['m', 's', 'f', 'b'] cs = cs := by
  induction cs with
  | nil => simp [replaceFirstChars]
  | cons c cs ih =>
    simp [containsChars] at h
    simp [replaceFirstChars, h.1, ih h.2]

/-- Replacing the first `run` commutes with appending a plain suffix. -/
theorem replaceFirstChars_append_suffix (cs sfx : List Char) (hs : plainSuffix sfx = true) :
    replaceFirstChars ['r', 'u', 'n'] ['m', 's', 'f', 'b'] (cs ++ sfx) =
      replaceFirstChars ['r', 'u', 'n'] ['m', 's', 'f', 'b'] cs ++ sfx := by
  induction cs with
  | nil =>
    have hc : containsChars ['r', 'u', 'n'] sfx = false := by
      simp [plainSuffix] at hs
      exact hs.2
    simp [replaceFirstChars_of_not_contains sfx hc, replaceFirstChars]
  | cons c cs ih =>
    have hstart := startsWithChars_run_append (c :: cs) sfx (by simp) hs
    rw [List.cons_append] at hstart ⊢
    by_cases hrun : startsWithChars ['r', 'u', 'n'] (c :: cs) = true
    · obtain ⟨rest, hrest⟩ := startsWithChars_run (c :: cs) hrun
      rw [replaceFirstChars, replaceFirstChars, hstart, hrun, ← List.cons_append, hrest]
      simp
    · rw [replaceFirstChars, replaceFirstChars, hstart]
      simp [hrun, ih]


/-- The characters of `"run"`. -/
theorem run_data : "run".data = ['r', 'u', 'n'] := rfl

/-- The characters of `"msfb"`. -/
theorem msfb_data : "msfb".data = ['m', 's', 'f', 'b'] := rfl

/-- From level 1 on, `getCleanableFileList` is the temporary-file table followed
by the variants of the base. -/
theorem getCleanableFileList_of_pos (file : String) (level : Int) (h : 1 ≤ level) :
    getCleanableFileList file level =
      nonMemTemporaryFiles ++
        msfFileSuffixes.map (fun f => stringsReplaceFirst (file ++ f) "run" "msfb") := by
  unfold getCleanableFileList
  rw [collectLevels_of_bound _ 2 _ level (by omega)]
  · simp [List.range_succ]
  · intro i hi
    have : (i : Int) ≠ 1 := by omega
    simp [this]

/-- Up to level 0, `getCleanableFileList` is empty. -/
theorem getCleanableFileList_of_nonpos (file : String) (level : Int) (h : level ≤ 0) :
    getCleanableFileList file level = [] := by
  unfold getCleanableFileList
  exact collectLevels_nonpos _ (by simp) level h

/-- For a plain suffix, `strings.Replace(file + suffix, "run", "msfb", 1)` is the
replacement in `file` followed by the suffix. -/
theorem stringsReplaceFirst_append_suffix (file f : String) (hs : plainSuffix f.data = true) :
    stringsReplaceFirst (file ++ f) "run" "msfb" = stringsReplaceFirst file "run" "msfb" ++ f := by
  apply String.ext
  simp [stringsReplaceFirst, run_data, msfb_data, replaceFirstChars_append_suffix _ _ hs]

/-- A leading `run` is the first occurrence: it becomes `msfb`. -/
theorem stringsReplaceFirst_leading_run (rest f : String) :
    stringsReplaceFirst ("run" ++ rest ++ f) "run" "msfb" = "msfb" ++ rest ++ f := by
  apply String.ext
  simp [stringsReplaceFirst, run_data, msfb_data, replaceFirstChars, startsWithChars]

/-- Each of the eight suffixes is plain. -/
theorem msfFileSuffixes_plain : ∀ f ∈ msfFileSuffixes, plainSuffix f.data = true := by
  decide

/-- Claim C8: `getCleanableFileList` is empty for every level of at most 0; for
every level of at least 1 it equals its value at level 1, which is the
temporary-file table followed by the eight variants
`strings.Replace(file + suffix, "run", "msfb", 1)`; for a base `"run" + rest`
these variants are `"msfb" + rest + suffix`. -/
theorem getCleanableFileList_levels (file : String) (level : Int) :
    (level ≤ 0 → getCleanableFileList file level = []) ∧
    (1 ≤ level → getCleanableFileList file level = getCleanableFileList file 1) ∧
    getCleanableFileList file 1 =
      nonMemTemporaryFiles ++
        [ stringsReplaceFirst (file ++ "") "run" "msfb",
          stringsReplaceFirst (file ++ "_ETAS") "run" "msfb",
          stringsReplaceFirst (file ++ "_RMAT") "run" "msfb",
          stringsReplaceFirst (file ++ "_SMAT") "run" "msfb",
          stringsReplaceFirst (file ++ ".msf") "run" "msfb",
          stringsReplaceFirst (file ++ "_ETAS.msf") "run" "msfb",
          stringsReplaceFirst (file ++ "_RMAT.msf") "run" "msfb",
          stringsReplaceFirst (file ++ "_SMAT.msf") "run" "msfb" ] ∧
    (∀ rest : String, file = "run" ++ rest →
      getCleanableFileList file 1 =
        nonMemTemporaryFiles ++
          [ "msfb" ++ rest, "msfb" ++ rest ++ "_ETAS", "msfb" ++ rest ++ "_RMAT",
            "msfb" ++ rest ++ "_SMAT", "msfb" ++ rest ++ ".msf", "msfb" ++ rest ++ "_ETAS.msf",
            "msfb" ++ rest ++ "_RMAT.msf", "msfb" ++ rest ++ "_SMAT.msf" ]) := by
  refine ⟨getCleanableFileList_of_nonpos file level, fun h => ?_, ?_, ?_⟩
  · rw [getCleanableFileList_of_pos file level h, getCleanableFileList_of_pos file 1 (le_refl 1)]
  · rw [getCleanableFileList_of_pos file 1 (le_refl 1)]
    rfl
  · rintro rest rfl
    rw [getCleanableFileList_of_pos _ 1 (le_refl 1)]
    simp only [msfFileSuffixes, List.map, stringsReplaceFirst_leading_run]
    simp

/-- Claim C8 at base `run001` and level 7: the variants are `msfb001`,
`msfb001_ETAS`, ..., `msfb001_SMAT.msf`. -/
theorem getCleanableFileList_levels_witness :
    getCleanableFileList "run001" 7 =
      nonMemTemporaryFiles ++
        [ "msfb001", "msfb001_ETAS", "msfb001_RMAT", "msfb001_SMAT", "msfb001.msf",
          "msfb001_ETAS.msf", "msfb001_RMAT.msf", "msfb001_SMAT.msf" ] :=
  (((getCleanableFileList_levels "run001" 7).2.1 (by decide)).trans
    ((getCleanableFileList_levels "run001" 7).2.2.2 "001" (by decide))).trans (by decide)


/-- A base without `run`, followed by a plain suffix, is left as it is. -/
theorem stringsReplaceFirst_of_not_contains (file f : String)
    (h : stringsContains file "run" = false) (hs : plainSuffix f.data = true) :
    stringsReplaceFirst (file ++ f) "run" "msfb" = file ++ f := by
  rw [stringsReplaceFirst_append_suffix file f hs]
  congr 1
  apply String.ext
  simp only [stringsContains, run_data] at h
  simp [stringsReplaceFirst, run_data, msfb_data, replaceFirstChars_of_not_contains _ h]

/-- When `run` does not occur in `pre` followed by `ru`, the `run` after `pre` is
the first occurrence and is the one replaced. -/
theorem replaceFirstChars_first_occurrence (pre post : List Char)
    (h : containsChars ['r', 'u', 'n'] (pre ++ ['r', 'u']) = false) :
    replaceFirstChars ['r', 'u', 'n'] ['m', 's', 'f', 'b'] (pre ++ 'r' :: 'u' :: 'n' :: post) =
      pre ++ 'm' :: 's' :: 'f' :: 'b' :: post := by
  induction pre with
  | nil => simp [replaceFirstChars, startsWithChars]
  | cons c cs ih =>
    simp only [List.cons_append, containsChars, Bool.or_eq_false_iff] at h
    have hstart : startsWithChars ['r', 'u', 'n'] (c :: (cs ++ 'r' :: 'u' :: 'n' :: post)) = false := by
      have h1 := h.1
      rcases cs with _ | ⟨d, _ | ⟨e, rest⟩⟩
      · simp [startsWithChars]
      · simp [startsWithChars]
      · simpa [startsWithChars] using h1
    rw [List.cons_append, replaceFirstChars, hstart]
    simp [ih h.2]

/-- The string form of the replacement of the first occurrence of `run`. -/
theorem stringsReplaceFirst_first_occurrence (pre post f : String)
    (h : stringsContains (pre ++ "ru") "run" = false) :
    stringsReplaceFirst (pre ++ "run" ++ post ++ f) "run" "msfb" = pre ++ "msfb" ++ post ++ f := by
  apply String.ext
  have hru : "ru".data = ['r', 'u'] := rfl
  simp only [stringsContains, run_data, String.data_append, hru] at h
  have := replaceFirstChars_first_occurrence pre.data (post.data ++ f.data) h
  simp [stringsReplaceFirst, run_data, msfb_data, this]

/-- Claim C9 as stated fails: the base `myrun1` does not begin with `run`, and its
variants are `mymsfb1` + suffix, not `myrun1` + suffix. -/
theorem getCleanableFileList_inner_run :
    startsWithChars "run".data "myrun1".data = false ∧
    getCleanableFileList "myrun1" 1 =
      nonMemTemporaryFiles ++
        [ "mymsfb1", "mymsfb1_ETAS", "mymsfb1_RMAT", "mymsfb1_SMAT", "mymsfb1.msf",
          "mymsfb1_ETAS.msf", "mymsfb1_RMAT.msf", "mymsfb1_SMAT.msf" ] ∧
    "myrun1" ∉ getCleanableFileList "myrun1" 1 := by
  decide

/-- Claim C9, amended: each variant is obtained by replacing the first occurrence
of `run` in the file name, wherever it stands. A base in which `run` does not
occur contributes base + suffix unchanged for each of the eight suffixes; a
base `pre + "run" + post`, with no earlier occurrence of `run`, contributes
`pre + "msfb" + post + suffix`. -/
theorem getCleanableFileList_first_occurrence (file : String) :
    (stringsContains file "run" = false →
      getCleanableFileList file 1 =
        nonMemTemporaryFiles ++
          [ file, file ++ "_ETAS", file ++ "_RMAT", file ++ "_SMAT", file ++ ".msf",
            file ++ "_ETAS.msf", file ++ "_RMAT.msf", file ++ "_SMAT.msf" ]) ∧
    (∀ pre post : String, file = pre ++ "run" ++ post →
      stringsContains (pre ++ "ru") "run" = false →
      getCleanableFileList file 1 =
        nonMemTemporaryFiles ++
          [ pre ++ "msfb" ++ post, pre ++ "msfb" ++ post ++ "_ETAS",
            pre ++ "msfb" ++ post ++ "_RMAT", pre ++ "msfb" ++ post ++ "_SMAT",
            pre ++ "msfb" ++ post ++ ".msf", pre ++ "msfb" ++ post ++ "_ETAS.msf",
            pre ++ "msfb" ++ post ++ "_RMAT.msf", pre ++ "msfb" ++ post ++ "_SMAT.msf" ]) := by
  constructor
  · intro h
    rw [getCleanableFileList_of_pos file 1 (le_refl 1)]
    have hall : ∀ f ∈ msfFileSuffixes, stringsReplaceFirst (file ++ f) "run" "msfb" = file ++ f :=
      fun f hf => stringsReplaceFirst_of_not_contains file f h (msfFileSuffixes_plain f hf)
    rw [List.map_congr_left hall]
    simp [msfFileSuffixes]
  · rintro pre post rfl h
    rw [getCleanableFileList_of_pos _ 1 (le_refl 1)]
    simp only [msfFileSuffixes, List.map, stringsReplaceFirst_first_occurrence pre post _ h]
    simp

/-- Claim C9, amended, at the bases `acop` (no `run`) and `rerun1` (an inner `run`). -/
theorem getCleanableFileList_first_occurrence_witness :
    getCleanableFileList "acop" 1 =
      nonMemTemporaryFiles ++
        [ "acop", "acop_ETAS", "acop_RMAT", "acop_SMAT", "acop.msf", "acop_ETAS.msf",
          "acop_RMAT.msf", "acop_SMAT.msf" ] ∧
    getCleanableFileList "rerun1" 1 =
      nonMemTemporaryFiles ++
        [ "remsfb1", "remsfb1_ETAS", "remsfb1_RMAT", "remsfb1_SMAT", "remsfb1.msf",
          "remsfb1_ETAS.msf", "remsfb1_RMAT.msf", "remsfb1_SMAT.msf" ] :=
  ⟨((getCleanableFileList_first_occurrence "acop").1 (by decide)).trans (by decide),
    ((getCleanableFileList_first_occurrence "rerun1").2 "re" "1" (by decide) (by decide)).trans
      (by decide)⟩


/-- Leading white space is dropped from the first part only when the second part
begins with another character. -/
theorem dropWhile_isSpace_append (f ext : List Char) (a : Char) (rest : List Char)
    (hext : ext = a :: rest) (ha : isSpace a = false) :
    (f ++ ext).dropWhile isSpace = f.dropWhile isSpace ++ ext := by
  induction f with
  | nil => simp [hext, List.dropWhile, ha]
  | cons c cs ih =>
    by_cases hc : isSpace c = true
    · simp [List.dropWhile, hc, ih]
    · simp [List.dropWhile, hc]

/-- A text whose last character is not white space has no trailing white space
to drop. -/
theorem trimRight_of_solid (l : List Char) (z : Char) (hlast : l.getLast? = some z)
    (hz : isSpace z = false) : (l.reverse.dropWhile isSpace).reverse = l := by
  obtain ⟨init, rfl⟩ : ∃ init, l = init ++ [z] := by
    rcases List.getLast?_eq_some_iff.1 hlast with ⟨init, h⟩
    exact ⟨init, h⟩
  simp [List.dropWhile, hz]

/-- For a solid extension, `strings.TrimSpace(filename + ext)` is the file name
without its leading white space, followed by the extension. -/
theorem stringsTrimSpace_append_solid (filename ext : String)
    (hs : solidExtension ext.data = true) :
    stringsTrimSpace (filename ++ ext) = ⟨filename.data.dropWhile isSpace⟩ ++ ext := by
  unfold solidExtension at hs
  rcases hhead : ext.data.head? with _ | a
  · simp [hhead] at hs
  rcases hlast : ext.data.getLast? with _ | z
  · simp [hhead, hlast] at hs
  simp [hhead, hlast] at hs
  obtain ⟨rest, hrest⟩ : ∃ rest, ext.data = a :: rest := by
    rcases hd : ext.data with _ | ⟨b, rest⟩
    · simp [hd] at hhead
    · simp [hd] at hhead
      exact ⟨rest, by rw [hhead]⟩
  apply String.ext
  have hdrop := dropWhile_isSpace_append filename.data ext.data a rest hrest hs.1
  have hlast2 : (filename.data.dropWhile isSpace ++ ext.data).getLast? = some z := by
    rw [List.getLast?_append, hlast]
    rfl
  simp only [stringsTrimSpace, String.data_append, hdrop]
  rw [trimRight_of_solid _ z hlast2 hs.2]


/-- Appending to a fixed string is injective. -/
theorem string_append_left_cancel (base : String) : Function.Injective (fun f : String => base ++ f) := by
  intro a b h
  have hd := congrArg String.data h
  simp only [String.data_append, List.append_cancel_left_eq] at hd
  exact String.ext hd

/-- No name occurs twice in the temporary-file table. -/
theorem nonMemTemporaryFiles_nodup : nonMemTemporaryFiles.Nodup := by
  decide

/-- The eight variants of a base are pairwise distinct. -/
theorem msfVariants_nodup (file : String) :
    (msfFileSuffixes.map (fun f => stringsReplaceFirst (file ++ f) "run" "msfb")).Nodup := by
  have hall : ∀ f ∈ msfFileSuffixes, stringsReplaceFirst (file ++ f) "run" "msfb" =
      stringsReplaceFirst file "run" "msfb" ++ f :=
    fun f hf => stringsReplaceFirst_append_suffix file f (msfFileSuffixes_plain f hf)
  rw [List.map_congr_left hall]
  exact List.Nodup.map (string_append_left_cancel _) (by decide)

/-- When no variant of the base is a name of the temporary-file table,
`getCleanableFileList` has no repeated name. -/
theorem getCleanableFileList_nodup (file : String) (level : Int)
    (hvar : ∀ f ∈ msfFileSuffixes,
      stringsReplaceFirst (file ++ f) "run" "msfb" ∉ nonMemTemporaryFiles) :
    (getCleanableFileList file level).Nodup := by
  rcases le_or_lt level 0 with h | h
  · rw [getCleanableFileList_of_nonpos file level h]
    exact List.nodup_nil
  · rw [getCleanableFileList_of_pos file level (by omega)]
    refine List.Nodup.append nonMemTemporaryFiles_nodup (msfVariants_nodup file) ?_
    intro x hx hx2
    obtain ⟨f, hf, rfl⟩ := List.mem_map.1 hx2
    exact hvar f hf hx

/-- Without parallel execution, the names of `FilesToRemove` are the names of
`getCleanableFileList` that are not excepted, in order. -/
theorem filesToCleanup_names_sequential {σ : Type} (ops : FsOps σ) (fs : σ)
    (model : NonMemModel) (exceptions : List String)
    (hpar : model.Configuration.Parallel.Parallel = false) :
    (filesToCleanup ops fs model exceptions).FilesToRemove.map TargetedFile.File =
      (getCleanableFileList model.FileName model.Configuration.CleanLvl).filter
        (fun v => !isFilenameInExceptions exceptions v) := by
  simp [filesToCleanup, hpar, List.map_map, Function.comp_def, newTargetFile]

/-- The names of `FilesToCopy` are the mandatory files followed by
`getCopiableFileList`. -/
theorem filesToCopy_names {σ : Type} (lib : Lib) (ops : FsOps σ) (fs : σ)
    (model : NonMemModel) (mandatoryFiles : List String) :
    (filesToCopy lib ops fs model mandatoryFiles).FilesToCopy.map TargetedFile.File =
      mandatoryFiles ++
        getCopiableFileList lib ops fs model.Model model.Configuration.CopyLvl model.OutputDir := by
  simp [filesToCopy, List.map_map, Function.comp_def, newTargetFile]

/-- The level loop at level 1 collects keys 0 and 1. -/
theorem collectLevels_one (files : Int → Option (List String)) :
    collectLevels files 1 = (files 0).getD [] ++ (files 1).getD [] := by
  have h2 : ((1 : Int) + 1).toNat = 2 := by decide
  simp [collectLevels, h2, List.range_succ]

/-- At level 1, `extrapolateCopyFilesFromExtensions` gives the seven level-1
extensions appended to the file name without its leading white space. -/
theorem extrapolate_level_one (filename : String) :
    extrapolateCopyFilesFromExtensions filename 1 =
      [".xml", ".grd", ".shk", ".cor", ".cov", ".ext", ".lst"].map
        (fun ext => (⟨filename.data.dropWhile isSpace⟩ : String) ++ ext) := by
  have hall : ∀ ext ∈ [".xml", ".grd", ".shk", ".cor", ".cov", ".ext", ".lst"],
      stringsTrimSpace (filename ++ ext) =
        (⟨filename.data.dropWhile isSpace⟩ : String) ++ ext := by
    intro ext hext
    apply stringsTrimSpace_append_solid
    revert ext
    decide
  unfold extrapolateCopyFilesFromExtensions
  rw [collectLevels_one, ← List.map_congr_left hall]
  simp

/-- The seven level-1 names are pairwise distinct. -/
theorem extrapolate_level_one_nodup (filename : String) :
    (extrapolateCopyFilesFromExtensions filename 1).Nodup := by
  rw [extrapolate_level_one]
  exact List.Nodup.map (string_append_left_cancel _) (by decide)

/-- Up to level 0, `getCopiableFileList` is empty. -/
theorem getCopiableFileList_nonpos {σ : Type} (lib : Lib) (ops : FsOps σ) (fs : σ)
    (file : String) (level : Int) (filepath : String) (h : level ≤ 0) :
    getCopiableFileList lib ops fs file level filepath = [] := by
  simp only [getCopiableFileList, extrapolateCopyFilesFromExtensions]
  rw [collectLevels_nonpos _ (by simp) level h, collectLevels_nonpos _ (by simp) level h]
  rfl

/-- At level 1, `getCopiableFileList` is the declared output files followed by
the seven level-1 names. -/
theorem getCopiableFileList_one {σ : Type} (lib : Lib) (ops : FsOps σ) (fs : σ)
    (file : String) (filepath : String) :
    getCopiableFileList lib ops fs file 1 filepath =
      lib.findOutputFiles (ops.readLines fs (lib.pathJoin [filepath, file])).1 ++
        extrapolateCopyFilesFromExtensions ((stringsSplit file '.').headD "") 1 := by
  simp [getCopiableFileList, collectLevels_one]

/-- Claim C10, amended: no file name occurs twice in `FilesToRemove` when parallel
execution is disabled and no variant of the base is a name of the
temporary-file table; no file name occurs twice in `FilesToCopy` when the copy
level is at most 1, the mandatory files and the declared output files are
pairwise distinct, and none of them is one of the seven level-1 names. -/
theorem instruction_lists_nodup :
    (∀ {σ : Type} (ops : FsOps σ) (fs : σ) (model : NonMemModel) (exceptions : List String),
      model.Configuration.Parallel.Parallel = false →
      (∀ f ∈ msfFileSuffixes,
        stringsReplaceFirst (model.FileName ++ f) "run" "msfb" ∉ nonMemTemporaryFiles) →
      ((filesToCleanup ops fs model exceptions).FilesToRemove.map TargetedFile.File).Nodup) ∧
    (∀ {σ : Type} (lib : Lib) (ops : FsOps σ) (fs : σ) (model : NonMemModel)
        (mandatoryFiles : List String),
      model.Configuration.CopyLvl ≤ 1 →
      (mandatoryFiles ++
        lib.findOutputFiles
          (ops.readLines fs (lib.pathJoin [model.OutputDir, model.Model])).1).Nodup →
      (∀ x ∈ mandatoryFiles ++
          lib.findOutputFiles (ops.readLines fs (lib.pathJoin [model.OutputDir, model.Model])).1,
        x ∉ extrapolateCopyFilesFromExtensions ((stringsSplit model.Model '.').headD "") 1) →
      ((filesToCopy lib ops fs model mandatoryFiles).FilesToCopy.map TargetedFile.File).Nodup) := by
  constructor
  · intro σ ops fs model exceptions hpar hvar
    rw [filesToCleanup_names_sequential ops fs model exceptions hpar]
    exact (getCleanableFileList_nodup _ _ hvar).filter _
  · intro σ lib ops fs model mandatoryFiles hlvl hnodup hdisj
    rw [filesToCopy_names]
    rcases lt_or_eq_of_le hlvl with h | h
    · rw [getCopiableFileList_nonpos lib ops fs _ _ _ (by omega), List.append_nil]
      exact (List.nodup_append.1 hnodup).1
    · rw [h, getCopiableFileList_one, ← List.append_assoc]
      refine List.Nodup.append hnodup (extrapolate_level_one_nodup _) ?_
      intro x hx hx2
      exact hdisj x hx hx2

/-- Claim C10, amended, at the sample job with the exception `run001.lst` and the
mandatory file `run001.sh`. -/
theorem instruction_lists_nodup_witness :
    ((filesToCleanup memOps fsAfterParallelRun sampleModel ["run001.lst"]).FilesToRemove.map
      TargetedFile.File).Nodup ∧
    ((filesToCopy plainLib memOps fsAfterParallelRun sampleModel ["run001.sh"]).FilesToCopy.map
      TargetedFile.File).Nodup :=
  ⟨instruction_lists_nodup.1 memOps fsAfterParallelRun sampleModel ["run001.lst"] (by decide)
      (by decide),
    instruction_lists_nodup.2 plainLib memOps fsAfterParallelRun sampleModel ["run001.sh"]
      (by decide) (by decide) (by decide)⟩

/-- Claim C10 as stated fails: `run001.clt` occurs twice in `FilesToCopy` at copy
level 2, and `run001.lst` occurs twice at copy level 1 when it is also a
mandatory file; `nonmem` occurs twice in `FilesToRemove` for the base
`nonmem`, and `fort.2001` occurs twice with parallel execution enabled and a
working directory that holds `fort.2001`. -/
theorem instruction_lists_repeat_names :
    List.count "run001.clt"
      ((filesToCopy plainLib memOps fsAfterParallelRun sampleCopyLevelTwoModel []).FilesToCopy.map
        TargetedFile.File) = 2 ∧
    List.count "run001.lst"
      ((filesToCopy plainLib memOps fsAfterParallelRun sampleModel ["run001.lst"]).FilesToCopy.map
        TargetedFile.File) = 2 ∧
    List.count "nonmem"
      ((filesToCleanup memOps fsAfterParallelRun sampleNonmemNamedModel []).FilesToRemove.map
        TargetedFile.File) = 2 ∧
    List.count "fort.2001"
      ((filesToCleanup memOps fsAfterParallelRun sampleParallelModel []).FilesToRemove.map
        TargetedFile.File) = 2 := by
  decide

/-- Claim C11: for every model, copy level and list of mandatory files,
`FilesToCopy` of `filesToCopy` is the mandatory files in their order, each with
level 11, followed by the files of `getCopiableFileList` at the copy level, each
with the copy level; every mandatory file is in it; for a copy level of at most
0 nothing else is; `CopyFrom` is `OutputDir` and `CopyTo` is `OriginalPath`. -/
theorem filesToCopy_mandatory_first {σ : Type} (lib : Lib) (ops : FsOps σ) (fs : σ)
    (model : NonMemModel) (mandatoryFiles : List String) :
    (filesToCopy lib ops fs model mandatoryFiles).FilesToCopy =
      mandatoryFiles.map (fun v => ({ File := v, Level := 11 } : TargetedFile)) ++
        (getCopiableFileList lib ops fs model.Model model.Configuration.CopyLvl
          model.OutputDir).map
          (fun v => ({ File := v, Level := model.Configuration.CopyLvl } : TargetedFile)) ∧
    ((filesToCopy lib ops fs model mandatoryFiles).FilesToCopy.take mandatoryFiles.length).map
      TargetedFile.File = mandatoryFiles ∧
    (∀ v ∈ mandatoryFiles,
      ({ File := v, Level := 11 } : TargetedFile) ∈
        (filesToCopy lib ops fs model mandatoryFiles).FilesToCopy) ∧
    (model.Configuration.CopyLvl ≤ 0 →
      (filesToCopy lib ops fs model mandatoryFiles).FilesToCopy =
        mandatoryFiles.map (fun v => ({ File := v, Level := 11 } : TargetedFile))) ∧
    (filesToCopy lib ops fs model mandatoryFiles).CopyFrom = model.OutputDir ∧
    (filesToCopy lib ops fs model mandatoryFiles).CopyTo = model.OriginalPath := by
  refine ⟨rfl, ?_, ?_, ?_, rfl, rfl⟩
  · simp [filesToCopy, newTargetFile, List.take_append_eq_append_take, List.map_map,
      Function.comp_def]
  · intro v hv
    simp only [filesToCopy, newTargetFile, List.mem_append, List.mem_map]
    exact Or.inl ⟨v, hv, rfl⟩
  · intro hlvl
    simp [filesToCopy, newTargetFile, getCopiableFileList_nonpos lib ops fs _ _ _ hlvl]

/-- Claim C11 at the sample job with copy level 0 and the mandatory file
`run001.sh`. -/
theorem filesToCopy_mandatory_first_witness :
    (filesToCopy plainLib memOps fsAfterParallelRun sampleCopyLevelZeroModel
      ["run001.sh"]).FilesToCopy = [{ File := "run001.sh", Level := 11 }] :=
  ((filesToCopy_mandatory_first plainLib memOps fsAfterParallelRun sampleCopyLevelZeroModel
    ["run001.sh"]).2.2.2.1 (by decide)).trans (by decide)

/-- A text starts with each of its own leading parts. -/
theorem startsWithChars_append (lead rest : List Char) :
    startsWithChars lead (lead ++ rest) = true := by
  induction lead with
  | nil => simp [startsWithChars]
  | cons c cs ih => simp [startsWithChars, ih]

/-- A text that starts with `sub` contains `sub`. -/
theorem containsChars_of_startsWithChars (sub text : List Char)
    (h : startsWithChars sub text = true) : containsChars sub text = true := by
  cases text with
  | nil => simpa [containsChars] using h
  | cons c cs => simp [containsChars, h]

/-- A name made of `est` and a run number contains `est`. -/
theorem stringsContains_append (est rest : String) :
    stringsContains (est ++ rest) est = true := by
  simp only [stringsContains, String.data_append]
  exact containsChars_of_startsWithChars _ _ (startsWithChars_append _ _)

/-- Trimming `est` from a name made of `est` and a run number leaves the run
number. -/
theorem stringsTrimPrefix_append (est rest : String) :
    stringsTrimPrefix (est ++ rest) est = rest := by
  simp [stringsTrimPrefix, String.data_append, startsWithChars_append]

/-- Joining two strings with the empty separator appends them. -/
theorem stringsJoin_pair (a b : String) : stringsJoin [a, b] "" = a ++ b := by
  simp [stringsJoin]

/-- The value of `modelNameEst`. -/
theorem modelNameEst_eq (modelFile : String) :
    modelNameEst modelFile = filepathBase modelFile ++ "_est_" := by
  simp [modelNameEst, stringsJoin_pair]

/-- The first loop of `FindNextEstDirNum` parses the names that contain
`modelNameEst`, in order. -/
theorem existingRunNums_eq (lib : RunnerLib) (est : String) (dirNames : List String) :
    existingRunNums lib est dirNames =
      (dirNames.filter (fun d => stringsContains d est)).map
        (fun d => (lib.atoi (stringsTrimPrefix d est)).1) := by
  induction dirNames with
  | nil => rfl
  | cons d rest ih =>
    by_cases h : stringsContains d est = true
    · simp [existingRunNums, h, ih]
    · simp [existingRunNums, h, ih]

/-- For names made of `est` and the padded numbers of `ks`, numbers that parse
back, the first loop of `FindNextEstDirNum` finds `ks`. -/
theorem existingRunNums_of_padded (lib : RunnerLib) (est : String) (padding : Int)
    (ks : List Int) (hround : ∀ k ∈ ks, (lib.atoi (lib.padNum k padding)).1 = k) :
    existingRunNums lib est (ks.map (fun k => est ++ lib.padNum k padding)) = ks := by
  induction ks with
  | nil => rfl
  | cons k rest ih =>
    have hk := hround k (List.mem_cons_self _ _)
    have hrest := ih (fun j hj => hround j (List.mem_cons_of_mem _ hj))
    simp [existingRunNums, stringsContains_append, stringsTrimPrefix_append, hk, hrest]

/-- The last element of the sorted run numbers is one of them and is at least
each of them. -/
theorem sorted_last_is_max (nums : List Int) (hne : nums ≠ []) :
    ∃ m, (nums.insertionSort (fun a b => a ≤ b)).getLast? = some m ∧ m ∈ nums ∧
      ∀ x ∈ nums, x ≤ m := by
  have hperm := List.perm_insertionSort (fun a b : Int => a ≤ b) nums
  have hsorted := List.sorted_insertionSort (fun a b : Int => a ≤ b) nums
  have hne2 : nums.insertionSort (fun a b => a ≤ b) ≠ [] := by
    intro h
    rw [h] at hperm
    exact hne (List.Perm.nil_eq hperm).symm
  obtain ⟨m, hm⟩ : ∃ m, (nums.insertionSort (fun a b => a ≤ b)).getLast? = some m := by
    cases hlast : (nums.insertionSort (fun a b => a ≤ b)).getLast? with
    | none => exact absurd (List.getLast?_eq_none_iff.1 hlast) hne2
    | some m => exact ⟨m, rfl⟩
  obtain ⟨ys, hys⟩ := List.getLast?_eq_some_iff.1 hm
  refine ⟨m, hm, ?_, ?_⟩
  · apply hperm.subset
    rw [hys]
    simp
  · intro x hx
    have hx2 : x ∈ nums.insertionSort (fun a b => a ≤ b) := hperm.symm.subset hx
    rw [hys] at hx2 hsorted
    rcases List.mem_append.1 hx2 with h | h
    · exact (List.pairwise_append.1 hsorted).2.2 x h m (by simp)
    · simp at h
      exact le_of_eq h
/-- A 64-bit value is its own 64-bit value. -/
theorem wrapInt64_of_int (x : Int) (hlow : -(2 ^ 63 : Int) ≤ x) (hhigh : x < 2 ^ 63) :
    wrapInt64 x = x := by
  unfold wrapInt64
  omega

/-- Every run number that the first loop of `FindNextEstDirNum` collects is a
64-bit `int`. -/
theorem existingRunNums_int (lib : RunnerLib) (est : String) (dirNames : List String) :
    ∀ k ∈ existingRunNums lib est dirNames, -(2 ^ 63 : Int) ≤ k ∧ k < 2 ^ 63 := by
  intro k hk
  rw [existingRunNums_eq] at hk
  obtain ⟨d, _, rfl⟩ := List.mem_map.1 hk
  exact lib.atoi_int _

/-- The suggestion of `FindNextEstDirNum` when run numbers exist, given the last
element `m` of the sorted run numbers. -/
theorem FindNextEstDirNum_of_last (lib : RunnerLib) (modelFile : String)
    (dirNames : List String) (padding : Int) (m : Int)
    (hne : existingRunNums lib (modelNameEst modelFile) dirNames ≠ [])
    (hlast : ((existingRunNums lib (modelNameEst modelFile) dirNames).insertionSort
      (fun a b => a ≤ b)).getLast? = some m) :
    FindNextEstDirNum lib modelFile dirNames padding =
      { suggestedName := filepathBase modelFile ++ "_est_" ++ lib.padNum (m + 1) padding
        needsRenumbering :=
          decide (wrapInt64 (m + 1) ≠
            wrapInt64
              (((existingRunNums lib (modelNameEst modelFile) dirNames).length : Int) + 1))
        isFirstRun := false } := by
  have hlen : (existingRunNums lib (modelNameEst modelFile) dirNames).length ≠ 0 := by
    simpa [List.length_eq_zero] using hne
  simp only [FindNextEstDirNum, nextRunNum, hlen, if_false, hlast, Option.getD_some,
    stringsJoin_pair, List.length_insertionSort]
  rw [modelNameEst_eq, ← lib.padNum_int]

/-- The suggestion of `FindNextEstDirNum` when no directory name contains
`modelNameEst`. -/
theorem FindNextEstDirNum_of_none (lib : RunnerLib) (modelFile : String)
    (dirNames : List String) (padding : Int)
    (hnil : existingRunNums lib (modelNameEst modelFile) dirNames = []) :
    FindNextEstDirNum lib modelFile dirNames padding =
      { suggestedName := filepathBase modelFile ++ "_est_" ++ lib.padNum 1 padding
        needsRenumbering := false
        isFirstRun := true } := by
  simp only [FindNextEstDirNum, hnil, List.length_nil, if_true, stringsJoin_pair]
  rw [modelNameEst_eq]

/-- Claim C12: when the sibling directory names are, in any order, the prefix
(base name of the model file and `_est_`) followed by the padded numbers
1..n, numbers that `strconv.Atoi` parses back, `FindNextEstDirNum` suggests the
prefix followed by `PadNum(n+1, padding)`, with `needsRenumbering` false and
`isFirstRun` true exactly when n = 0. -/
theorem FindNextEstDirNum_consecutive (lib : RunnerLib) (modelFile : String) (padding : Int)
    (n : Nat) (dirNames : List String)
    (hround : ∀ k : Int, 1 ≤ k → k ≤ n → (lib.atoi (lib.padNum k padding)).1 = k)
    (hperm : dirNames.Perm
      ((List.range n).map
        (fun (i : Nat) =>
          filepathBase modelFile ++ "_est_" ++ lib.padNum ((i : Int) + 1) padding))) :
    FindNextEstDirNum lib modelFile dirNames padding =
      { suggestedName := filepathBase modelFile ++ "_est_" ++ lib.padNum ((n : Int) + 1) padding
        needsRenumbering := false
        isFirstRun := decide (n = 0) } := by
  have hks : ∀ k ∈ (List.range n).map (fun i : Nat => (i : Int) + 1),
      (lib.atoi (lib.padNum k padding)).1 = k := by
    intro k hk
    obtain ⟨i, hi, rfl⟩ := List.mem_map.1 hk
    have := List.mem_range.1 hi
    exact hround _ (by omega) (by omega)
  have hcanon : existingRunNums lib (modelNameEst modelFile)
      ((List.range n).map
        (fun (i : Nat) =>
          filepathBase modelFile ++ "_est_" ++ lib.padNum ((i : Int) + 1) padding)) =
      (List.range n).map (fun i : Nat => (i : Int) + 1) := by
    have h := existingRunNums_of_padded lib (modelNameEst modelFile) padding _ hks
    rw [← modelNameEst_eq]
    simpa only [List.map_map, Function.comp_def] using h
  have hexist : (existingRunNums lib (modelNameEst modelFile) dirNames).Perm
      ((List.range n).map (fun i : Nat => (i : Int) + 1)) := by
    rw [← hcanon, existingRunNums_eq, existingRunNums_eq]
    exact (hperm.filter _).map _
  have hlen : (existingRunNums lib (modelNameEst modelFile) dirNames).length = n := by
    rw [hexist.length_eq]
    simp
  rcases Nat.eq_zero_or_pos n with hn | hn
  · subst hn
    have hnil : existingRunNums lib (modelNameEst modelFile) dirNames = [] :=
      List.length_eq_zero.1 hlen
    rw [FindNextEstDirNum_of_none lib modelFile dirNames padding hnil]
    simp
  · have hne : existingRunNums lib (modelNameEst modelFile) dirNames ≠ [] := by
      intro h
      rw [h] at hlen
      simp at hlen
      omega
    obtain ⟨m, hlast, hmem, hmax⟩ := sorted_last_is_max _ hne
    have hm_le : m ≤ n := by
      obtain ⟨i, hi, rfl⟩ := List.mem_map.1 (hexist.subset hmem)
      have := List.mem_range.1 hi
      omega
    have hn_le : (n : Int) ≤ m := by
      apply hmax
      apply hexist.symm.subset
      exact List.mem_map.2 ⟨n - 1, List.mem_range.2 (by omega), by omega⟩
    have hmn : m = n := le_antisymm hm_le hn_le
    rw [FindNextEstDirNum_of_last lib modelFile dirNames padding m hne hlast, hlen, hmn]
    have hn0 : n ≠ 0 := by omega
    simp [hn0]

/-- Claim C12 at the examples of the specification: no sibling and padding 2 give
`run001_est_01` as a first run; the siblings 2 and 1 give `run001_est_03`. -/
theorem FindNextEstDirNum_consecutive_witness :
    FindNextEstDirNum decimalLib "run001" [] 2 =
      { suggestedName := "run001_est_01", needsRenumbering := false, isFirstRun := true } ∧
    FindNextEstDirNum decimalLib "run001" ["run001_est_02", "run001_est_01"] 2 =
      { suggestedName := "run001_est_03", needsRenumbering := false, isFirstRun := false } :=
  ⟨(FindNextEstDirNum_consecutive decimalLib "run001" 2 0 []
      (fun k h1 h2 => by omega) (List.Perm.refl _)).trans (by decide),
    (FindNextEstDirNum_consecutive decimalLib "run001" 2 2 ["run001_est_02", "run001_est_01"]
      (fun k h1 h2 => by
        have h3 : k = 1 ∨ k = 2 := by omega
        rcases h3 with rfl | rfl <;> decide)
      (List.Perm.swap _ _ _)).trans (by decide)⟩

/-- Claim C13 as stated fails: with the siblings `run001_est_00` and
`run001_est_02` no sibling has run number 1, and with the siblings
`run001_est_1`, `run001_est_01` and `run001_est_03` none has run number 2;
`FindNextEstDirNum` returns `needsRenumbering` false for both. -/
theorem FindNextEstDirNum_gap_missed :
    existingRunNums decimalLib (modelNameEst "run001") ["run001_est_00", "run001_est_02"] =
      [0, 2] ∧
    (FindNextEstDirNum decimalLib "run001" ["run001_est_00", "run001_est_02"] 2).needsRenumbering =
      false ∧
    existingRunNums decimalLib (modelNameEst "run001")
      ["run001_est_1", "run001_est_01", "run001_est_03"] = [1, 1, 3] ∧
    (FindNextEstDirNum decimalLib "run001"
      ["run001_est_1", "run001_est_01", "run001_est_03"] 2).needsRenumbering = false := by
  decide

/-- Claim C13, amended: when the sibling directory names are pairwise distinct
and are the prefix followed by the padded numbers of `ks`, numbers that are all
at least 1 and that `strconv.Atoi` parses back, and some integer `g` between 1
and a run number `m` is not a run number, `FindNextEstDirNum` returns
`needsRenumbering` true. -/
theorem FindNextEstDirNum_gap (lib : RunnerLib) (modelFile : String) (padding : Int)
    (ks : List Int) (dirNames : List String)
    (hnames : dirNames =
      ks.map (fun k => filepathBase modelFile ++ "_est_" ++ lib.padNum k padding))
    (hdistinct : dirNames.Nodup)
    (hround : ∀ k ∈ ks, (lib.atoi (lib.padNum k padding)).1 = k)
    (hpos : ∀ k ∈ ks, 1 ≤ k)
    (g m : Int) (hg : 1 ≤ g) (hgm : g < m) (hm : m ∈ ks) (hgap : g ∉ ks) :
    (FindNextEstDirNum lib modelFile dirNames padding).needsRenumbering = true := by
  have hnodup : ks.Nodup := by
    rw [hnames] at hdistinct
    exact List.Nodup.of_map _ hdistinct
  have hexist : existingRunNums lib (modelNameEst modelFile) dirNames = ks := by
    rw [hnames, ← modelNameEst_eq]
    exact existingRunNums_of_padded lib (modelNameEst modelFile) padding ks hround
  have hne : existingRunNums lib (modelNameEst modelFile) dirNames ≠ [] := by
    rw [hexist]
    exact List.ne_nil_of_mem hm
  obtain ⟨top, hlast, hmem, hmax⟩ := sorted_last_is_max _ hne
  rw [hexist] at hmem hmax
  rw [FindNextEstDirNum_of_last lib modelFile dirNames padding top hne hlast, hexist]
  have hsub : ks.toFinset ⊆ (Finset.Icc 1 top).erase g := by
    intro x hx
    have hx2 : x ∈ ks := List.mem_toFinset.1 hx
    refine Finset.mem_erase.2 ⟨fun h => hgap (h ▸ hx2), Finset.mem_Icc.2 ⟨hpos x hx2, hmax x hx2⟩⟩
  have hgtop : g ≤ top := le_trans (le_of_lt hgm) (hmax m hm)
  have hcard := Finset.card_le_card hsub
  rw [List.toFinset_card_of_nodup hnodup,
    Finset.card_erase_of_mem (Finset.mem_Icc.2 ⟨hg, hgtop⟩), Int.card_Icc] at hcard
  have hlt : (ks.length : Int) < top := by omega
  have htop : top < 2 ^ 63 := by
    rw [← hround top hmem]
    exact (lib.atoi_int _).2
  have hlen : wrapInt64 ((ks.length : Int) + 1) = (ks.length : Int) + 1 :=
    wrapInt64_of_int _ (by omega) (by omega)
  simp only [decide_eq_true_eq, hlen]
  unfold wrapInt64
  omega

/-- Claim C13, amended, at the siblings 1 and 3 of the specification. -/
theorem FindNextEstDirNum_gap_witness :
    (FindNextEstDirNum decimalLib "run001" ["run001_est_01", "run001_est_03"] 2).needsRenumbering =
      true :=
  FindNextEstDirNum_gap decimalLib "run001" 2 [1, 3] ["run001_est_01", "run001_est_03"]
    (by decide) (by decide) (by decide) (by decide) 2 3 (by decide) (by decide) (by decide)
    (by decide)

/-- Claim C18 as stated fails: with the siblings numbered `9223372036854775807`
and `-9223372036854775808`, the sum `max + 1` wraps around to
`-9223372036854775808`, a number that `strconv.Atoi` parses back from its padded
form, and `FindNextEstDirNum` suggests the name of the second sibling; the
suggested run number is not greater than the run numbers of the siblings. -/
theorem FindNextEstDirNum_wraps_onto_sibling :
    existingRunNums decimalLib (modelNameEst "run001")
        ["run001_est_9223372036854775807", "run001_est_-9223372036854775808"] =
      [9223372036854775807, -9223372036854775808] ∧
    nextRunNum decimalLib "run001"
        ["run001_est_9223372036854775807", "run001_est_-9223372036854775808"] =
      -9223372036854775808 ∧
    (decimalLib.atoi (decimalLib.padNum (-9223372036854775808) 2)).1 = -9223372036854775808 ∧
    (FindNextEstDirNum decimalLib "run001"
        ["run001_est_9223372036854775807", "run001_est_-9223372036854775808"] 2).suggestedName =
      "run001_est_-9223372036854775808" ∧
    "run001_est_-9223372036854775808" ∈
      ["run001_est_9223372036854775807", "run001_est_-9223372036854775808"] := by
  decide

/-- Claim C18, amended: when no run number parsed from the siblings is the
largest `int` value `2^63 - 1`, and `strconv.Atoi` parses the padded suggested
run number back to that number, the name `FindNextEstDirNum` suggests is none of
the given sibling directory names, and the suggested run number is greater than
every run number parsed from the siblings. -/
theorem FindNextEstDirNum_fresh (lib : RunnerLib) (modelFile : String)
    (dirNames : List String) (padding : Int)
    (hmax : ∀ k ∈ existingRunNums lib (modelNameEst modelFile) dirNames,
      k < 9223372036854775807)
    (hround : (lib.atoi (lib.padNum (nextRunNum lib modelFile dirNames) padding)).1 =
      nextRunNum lib modelFile dirNames) :
    (FindNextEstDirNum lib modelFile dirNames padding).suggestedName =
      filepathBase modelFile ++ "_est_" ++
        lib.padNum (nextRunNum lib modelFile dirNames) padding ∧
    (FindNextEstDirNum lib modelFile dirNames padding).suggestedName ∉ dirNames ∧
    ∀ k ∈ existingRunNums lib (modelNameEst modelFile) dirNames,
      k < nextRunNum lib modelFile dirNames := by
  have hgreater : ∀ k ∈ existingRunNums lib (modelNameEst modelFile) dirNames,
      k < nextRunNum lib modelFile dirNames := by
    intro k hk
    have hne : existingRunNums lib (modelNameEst modelFile) dirNames ≠ [] :=
      List.ne_nil_of_mem hk
    obtain ⟨top, hlast, hmem, hle⟩ := sorted_last_is_max _ hne
    have hk_le := hle k hk
    have htop_low := (existingRunNums_int lib _ dirNames top hmem).1
    have htop_high := hmax top hmem
    have hwrap : wrapInt64 (top + 1) = top + 1 := wrapInt64_of_int _ (by omega) (by omega)
    simp only [nextRunNum, hlast, Option.getD_some, hwrap]
    omega
  have hname : (FindNextEstDirNum lib modelFile dirNames padding).suggestedName =
      filepathBase modelFile ++ "_est_" ++
        lib.padNum (nextRunNum lib modelFile dirNames) padding := by
    by_cases hnil : existingRunNums lib (modelNameEst modelFile) dirNames = []
    · rw [FindNextEstDirNum_of_none lib modelFile dirNames padding hnil]
      have hone : wrapInt64 1 = 1 := by decide
      simp [nextRunNum, hnil, hone]
    · obtain ⟨top, hlast, _, _⟩ := sorted_last_is_max _ hnil
      rw [FindNextEstDirNum_of_last lib modelFile dirNames padding top hnil hlast]
      simp only [nextRunNum, hlast, Option.getD_some]
      rw [← lib.padNum_int]
  refine ⟨hname, ?_, hgreater⟩
  intro hmem
  rw [hname, ← modelNameEst_eq] at hmem
  have hin : nextRunNum lib modelFile dirNames ∈
      existingRunNums lib (modelNameEst modelFile) dirNames := by
    rw [existingRunNums_eq]
    refine List.mem_map.2 ⟨_, List.mem_filter.2 ⟨hmem, ?_⟩, ?_⟩
    · simp [stringsContains_append]
    · simp only [stringsTrimPrefix_append]
      exact hround
  exact lt_irrefl _ (hgreater _ hin)

/-- Claim C18, amended, at three siblings of the job `run001`, one of them
unnumbered. -/
theorem FindNextEstDirNum_fresh_witness :
    (FindNextEstDirNum decimalLib "run001"
        ["run001_est_01", "run001_est_05", "old_run001_est_09"] 2).suggestedName =
      "run001_est_06" ∧
    "run001_est_06" ∉ ["run001_est_01", "run001_est_05", "old_run001_est_09"] :=
  have h := FindNextEstDirNum_fresh decimalLib "run001"
    ["run001_est_01", "run001_est_05", "old_run001_est_09"] 2 (by decide) (by decide)
  ⟨h.1.trans (by decide), by decide⟩

set_option maxRecDepth 100000 in
/-- The template constant parses into six texts and five field actions. -/
theorem parseTemplate_nonmemParaFiletemplate :
    parseTemplate nonmemParaFiletemplate =
      .ok [ .text "$GENERAL\nNODES=", .field "TotalNodes",
        .text " PARSE_TYPE=2 TIMEOUTI=100 TIMEOUT=", .field "CompletionTimeout",
        .text " PARAPRINT=0 TRANSFER_TYPE=1\n$COMMANDS\n1: ", .field "MpiExecPath",
        .text " -wdir \"$PWD\" -n ", .field "HeadNodes",
        .text " ./nonmem $*\n2:-wdir \"$PWD\" -n ", .field "WorkerNodes",
        .text " ./nonmem -wnf\n$DIRECTORIES\n1:NONE\n2-[nodes]:worker\x7b#-1\x7d" ] := by
  decide

/-- Claim C17: for every node count n, completion timeout t and launcher path
p, `generateParaFile` succeeds and returns the template text with `NODES=n`,
`PARSE_TYPE=2`, `TIMEOUTI=100`, `TIMEOUT=t` and `TRANSFER_TYPE=1` in the general
block, the head command line launching p with `-n 1`, the worker command line
with `-n` n-1, and the directory directive `2-[nodes]:worker{#-1}`; the head
and worker ranks add up to n. -/
theorem generateParaFile_text (l : NonMemModel) :
    generateParaFile l =
      .ok ("$GENERAL\nNODES=" ++ formatInt l.Configuration.Parallel.Nodes ++
        " PARSE_TYPE=2 TIMEOUTI=100 TIMEOUT=" ++ formatInt l.Configuration.Parallel.Timeout ++
        " PARAPRINT=0 TRANSFER_TYPE=1\n$COMMANDS\n1: " ++
        l.Configuration.Parallel.MPIExecPath ++ " -wdir \"$PWD\" -n " ++ formatInt 1 ++
        " ./nonmem $*\n2:-wdir \"$PWD\" -n " ++
        formatInt (l.Configuration.Parallel.Nodes - 1) ++
        " ./nonmem -wnf\n$DIRECTORIES\n1:NONE\n2-[nodes]:worker\x7b#-1\x7d") ∧
    formatInt 1 = "1" ∧
    (1 : Int) + (l.Configuration.Parallel.Nodes - 1) = l.Configuration.Parallel.Nodes := by
  refine ⟨?_, by decide, by omega⟩
  simp only [generateParaFile, parseTemplate_nonmemParaFiletemplate, executeNodes,
    nonmemParallelDirective.fields, lookupField]
  simp [String.append_assoc]

set_option maxRecDepth 100000 in
/-- Claim C17 at the sample job: 8 nodes, the default timeout and launcher. -/
theorem generateParaFile_text_witness :
    generateParaFile sampleParallelModel =
      .ok ("$GENERAL\nNODES=8 PARSE_TYPE=2 TIMEOUTI=100 TIMEOUT=2147483647 PARAPRINT=0 " ++
        "TRANSFER_TYPE=1\n$COMMANDS\n1: /usr/local/mpich3/bin/mpiexec -wdir \"$PWD\" -n 1 " ++
        "./nonmem $*\n2:-wdir \"$PWD\" -n 7 ./nonmem -wnf\n$DIRECTORIES\n1:NONE\n" ++
        "2-[nodes]:worker\x7b#-1\x7d") :=
  (generateParaFile_text sampleParallelModel).1.trans (by decide)

/-- A text without the separator is one piece. -/
theorem splitChars_of_not_mem (sep : Char) (a : List Char) (ha : sep ∉ a) :
    splitChars sep a = [a] := by
  induction a with
  | nil => rfl
  | cons c cs ih =>
    have hc : c ≠ sep := fun h => ha (h ▸ List.mem_cons_self _ _)
    have hcs : sep ∉ cs := fun h => ha (List.mem_cons_of_mem _ h)
    simp [splitChars, hc, ih hcs]

/-- The first piece of a text is what precedes the first separator. -/
theorem splitChars_append (sep : Char) (a rest : List Char) (ha : sep ∉ a) :
    splitChars sep (a ++ sep :: rest) = a :: splitChars sep rest := by
  induction a with
  | nil => simp [splitChars]
  | cons c cs ih =>
    have hc : c ≠ sep := fun h => ha (h ▸ List.mem_cons_self _ _)
    have hcs : sep ∉ cs := fun h => ha (List.mem_cons_of_mem _ h)
    simp [splitChars, hc, ih hcs]

/-- A text always splits into at least one piece. -/
theorem splitChars_ne_nil (sep : Char) (a : List Char) : splitChars sep a ≠ [] := by
  cases a with
  | nil => simp [splitChars]
  | cons c cs =>
    by_cases hc : c = sep
    · simp [splitChars, hc]
    · cases h : splitChars sep cs <;> simp [splitChars, hc, h]

/-- The characters of `"."`. -/
theorem dot_data : ".".data = ['.'] := rfl

/-- A name without a dot: `FileName` is the name, `Extension` is empty. -/
theorem splitModelName_no_dot (model : String) (h : '.' ∉ model.data) :
    splitModelName model = (model, "") := by
  simp [splitModelName, stringsSplit, splitChars_of_not_mem '.' model.data h]

/-- A name `a.rest`, with no dot in `a`: `FileName` is `a` and `Extension` is the
first piece of `rest`. -/
theorem splitModelName_dot (a rest : String) (ha : '.' ∉ a.data) :
    splitModelName (a ++ "." ++ rest) =
      (a, ⟨(splitChars '.' rest.data).headD []⟩) := by
  have hsplit := splitChars_append '.' a.data rest.data ha
  cases hrest : splitChars '.' rest.data with
  | nil => exact absurd hrest (splitChars_ne_nil '.' rest.data)
  | cons p ps => simp [splitModelName, stringsSplit, hsplit, hrest]

/-- Every descriptor that `NewNonMemModel` returns has `FileName` and `Extension`
as `splitModelName` gives them for its `Model`. -/
theorem NewNonMemModel_pieces (lib : Lib) (env : BuilderEnv) (modelname : String)
    (lm : NonMemModel) (hres : NewNonMemModel lib env modelname = .ok lm) :
    (lm.FileName, lm.Extension) = splitModelName lm.Model := by
  have hzero : splitModelName "" = ("", "") := by decide
  unfold NewNonMemModel at hres
  simp only at hres
  split at hres
  · cases hres
    exact hzero.symm
  · split at hres
    · cases hres
    · split at hres
      · cases hres
      · split at hres
        · cases hres
          exact hzero.symm
        · split at hres
          · cases hres
          · cases hres
            rfl

/-- A populated descriptor carries the name that `fs.Stat` reported for the
path of the job file. -/
theorem NewNonMemModel_model (lib : Lib) (env : BuilderEnv) (modelname : String)
    (lm : NonMemModel) (hres : NewNonMemModel lib env modelname = .ok lm)
    (hmodel : lm.Model ≠ "") :
    env.statName (modelPath lib env modelname) = .ok lm.Model ∧
    lm.Path = modelPath lib env modelname ∧
    lm.OriginalPath = originalPathOf lm.Path lm.Model := by
  unfold NewNonMemModel at hres
  simp only at hres
  split at hres
  · cases hres
    exact absurd rfl hmodel
  · rename_i name hstat
    split at hres
    · cases hres
    · split at hres
      · cases hres
      · split at hres
        · cases hres
          exact absurd rfl hmodel
        · split at hres
          · cases hres
          · cases hres
            exact ⟨hstat, rfl, rfl⟩

/-- Claim C14, at a failing input: for the job file `run001.v2.mod`, `FileName` is
`run001` and `Extension` is `v2`, not `v2.mod`; `FileName + "." + Extension` is
`run001.v2`, not the job file name. -/
theorem NewNonMemModel_second_piece_only :
    (NewNonMemModel plainLib (memBuilderEnv fsDottedNames sampleConfig)
        "/data/run001.v2.mod").map (fun lm => (lm.Model, lm.FileName, lm.Extension)) =
      .ok ("run001.v2.mod", "run001", "v2") ∧
    "run001" ++ "." ++ "v2" ≠ "run001.v2.mod" := by
  decide

/-- What `NewNonMemModel` does with the job file name: in every descriptor it
returns, `FileName` is the text before the first dot and `Extension` is the text
between the first and the second dot (up to the end when there is no second
dot); `FileName + "." + Extension` is the job file name when it has exactly one
dot; without a dot, `FileName` is the whole name and `Extension` is empty. -/
theorem NewNonMemModel_split (lib : Lib) (env : BuilderEnv) (modelname : String)
    (lm : NonMemModel) (hres : NewNonMemModel lib env modelname = .ok lm) :
    (∀ a b : String, '.' ∉ a.data → '.' ∉ b.data → lm.Model = a ++ "." ++ b →
      lm.FileName = a ∧ lm.Extension = b ∧ lm.FileName ++ "." ++ lm.Extension = lm.Model) ∧
    (∀ a b c : String, '.' ∉ a.data → '.' ∉ b.data → lm.Model = a ++ "." ++ (b ++ "." ++ c) →
      lm.FileName = a ∧ lm.Extension = b) ∧
    ('.' ∉ lm.Model.data → lm.FileName = lm.Model ∧ lm.Extension = "") := by
  have hpieces := NewNonMemModel_pieces lib env modelname lm hres
  refine ⟨?_, ?_, ?_⟩
  · intro a b ha hb hmodel
    rw [hmodel, splitModelName_dot a b ha, splitChars_of_not_mem '.' b.data hb] at hpieces
    simp only [Prod.mk.injEq, List.headD_cons] at hpieces
    refine ⟨hpieces.1, hpieces.2, ?_⟩
    rw [hpieces.1, hpieces.2, hmodel]
  · intro a b c ha hb hmodel
    have hsplit : splitChars '.' (b ++ "." ++ c).data = b.data :: splitChars '.' c.data := by
      simp only [String.data_append, dot_data, List.append_assoc, List.singleton_append]
      exact splitChars_append '.' b.data c.data hb
    rw [hmodel, splitModelName_dot a (b ++ "." ++ c) ha, hsplit] at hpieces
    simp only [Prod.mk.injEq, List.headD_cons] at hpieces
    exact ⟨hpieces.1, hpieces.2⟩
  · intro hnodot
    rw [splitModelName_no_dot lm.Model hnodot] at hpieces
    simp only [Prod.mk.injEq] at hpieces
    exact ⟨hpieces.1, hpieces.2⟩

/-- The pieces of the job file name `run001.v2.mod`, from the general statement. -/
theorem NewNonMemModel_split_example :
    NewNonMemModel plainLib (memBuilderEnv fsDottedNames sampleConfig) "/data/run001.v2.mod" =
      .ok sampleDottedModel ∧
    sampleDottedModel.Model = "run001" ++ "." ++ ("v2" ++ "." ++ "mod") ∧
    sampleDottedModel.FileName = "run001" ∧ sampleDottedModel.Extension = "v2" :=
  ⟨by decide, by decide,
    (NewNonMemModel_split plainLib (memBuilderEnv fsDottedNames sampleConfig)
      "/data/run001.v2.mod" sampleDottedModel (by decide)).2.1 "run001" "v2" "mod"
      (by decide) (by decide) (by decide)⟩

/-- When `old` occurs at no earlier position, the occurrence after `pre` is the
first one and is the one `strings.Replace(s, old, new, 1)` replaces. -/
theorem replaceFirstChars_at (old new pre post : List Char)
    (hfirst : ∀ p q, pre = p ++ q → q ≠ [] → startsWithChars old (q ++ old ++ post) = false) :
    replaceFirstChars old new (pre ++ old ++ post) = pre ++ new ++ post := by
  induction pre with
  | nil =>
    cases hold : old ++ post with
    | nil =>
      have h1 : old = [] := (List.append_eq_nil.1 hold).1
      have h2 : post = [] := (List.append_eq_nil.1 hold).2
      simp [replaceFirstChars, h1, h2]
    | cons c cs =>
      have hstart : startsWithChars old (c :: cs) = true := by
        rw [← hold]
        exact startsWithChars_append old post
      have hdrop : (c :: cs).drop old.length = post := by
        rw [← hold]
        simp
      simp only [List.nil_append, hold, replaceFirstChars, hstart, if_true, hdrop]
  | cons c cs ih =>
    have hstart : startsWithChars old (c :: cs ++ old ++ post) = false :=
      hfirst [] (c :: cs) rfl (List.cons_ne_nil _ _)
    have hrest : ∀ p q, cs = p ++ q → q ≠ [] → startsWithChars old (q ++ old ++ post) = false :=
      fun p q hpq hq => hfirst (c :: p) q (by rw [hpq]; rfl) hq
    have hcons : c :: cs ++ old ++ post = c :: (cs ++ old ++ post) := by simp
    rw [hcons] at hstart ⊢
    rw [replaceFirstChars, hstart, ih hrest]
    simp

/-- The source directory is the parent directory when `/` followed by the job
file name occurs nowhere in the path before its last component. -/
theorem originalPathOf_parent (dir name : String)
    (hfirst : ∀ p q, dir.data = p ++ q → q ≠ [] →
      startsWithChars ('/' :: name.data) (q ++ '/' :: name.data) = false) :
    originalPathOf (dir ++ "/" ++ name) name = dir := by
  apply String.ext
  have hslash : "/".data = ['/'] := rfl
  have hempty : "".data = [] := rfl
  have h := replaceFirstChars_at ('/' :: name.data) [] dir.data []
    (fun p q hpq hq => by simpa using hfirst p q hpq hq)
  simp only [List.append_nil] at h
  simp only [originalPathOf, stringsReplaceFirst, String.data_append, hslash, hempty,
    List.singleton_append, List.append_assoc]
  exact h

/-- Claim C15, at a failing input: for the job file
`/data/run001.mod.d/run001.mod`, whose parent directory is `/data/run001.mod.d`,
the first occurrence of `/run001.mod` lies inside the directory name, the source
directory is computed as `/data.d/run001.mod`, and `NewNonMemModel` ends the
process looking for the configuration there, although the parent directory
holds one. -/
theorem NewNonMemModel_original_path_not_parent :
    "/data/run001.mod.d/run001.mod" = "/data/run001.mod.d" ++ "/" ++ "run001.mod" ∧
    (memBuilderEnv fsDottedNames sampleConfig).statName "/data/run001.mod.d/run001.mod" =
      .ok "run001.mod" ∧
    originalPathOf "/data/run001.mod.d/run001.mod" "run001.mod" = "/data.d/run001.mod" ∧
    (fsDottedNames.lookup "/data/run001.mod.d/babylon.yaml").isSome = true ∧
    NewNonMemModel plainLib (memBuilderEnv fsDottedNames sampleConfig)
        "/data/run001.mod.d/run001.mod" =
      .error ("A failure occurred accessing the initial configuration at " ++
        "/data.d/run001.mod/babylon.yaml") := by
  decide

/-- The loop of `nonmemModelsFromArguments` appends to `output` the expansion of
each argument, in order. -/
theorem resolveArguments_eq (lib : Lib) (env : ResolverEnv) (args output : List String) :
    resolveArguments lib env args output =
      output ++ (args.map (expandArgument lib env)).flatten := by
  induction args generalizing output with
  | nil => simp [resolveArguments]
  | cons arg rest ih =>
    simp only [List.map_cons, List.flatten_cons]
    by_cases hdir : (env.fileAndExt arg).2 = "" ∨ arg = "."
    · rcases hisdir : env.isDir arg with ⟨isDir, err⟩
      cases err with
      | some e => simp [resolveArguments, expandArgument, hdir, hisdir, ih]
      | none =>
        cases isDir with
        | false => simp [resolveArguments, expandArgument, hdir, hisdir, ih]
        | true =>
          rcases hlist : env.listModels arg ".mod" with ⟨modelsInDir, lerr⟩
          cases lerr with
          | some e => simp [resolveArguments, expandArgument, hdir, hisdir, hlist, ih]
          | none => simp [resolveArguments, expandArgument, hdir, hisdir, hlist, ih]
    · by_cases hbr : hasBracketPair arg = true
      · rcases hexp : env.expandNameSequence arg with ⟨pat, err⟩
        cases err with
        | some e => simp [resolveArguments, expandArgument, hdir, hbr, hexp, ih]
        | none => simp [resolveArguments, expandArgument, hdir, hbr, hexp, ih]
      · simp [resolveArguments, expandArgument, hdir, hbr, ih]

/-- Claim C16: the paths for which `nonmemModelsFromArguments` builds descriptors
are the in-order concatenation of the expansions of the arguments, so that
their number is the sum of the lengths of the expansions (duplicates are
kept) and an argument with an empty expansion (a failed listing or range
expansion) changes nothing for the others; a directory argument contributes its
`.mod` files joined to it, an argument with a bracket pair its range expansion,
any other argument itself. -/
theorem nonmemModelsFromArguments_paths (lib : Lib) (benv : BuilderEnv) (env : ResolverEnv)
    (args : List String) :
    nonmemModelsFromArguments lib benv env args =
      buildModels lib benv ((args.map (expandArgument lib env)).flatten) ∧
    resolveArguments lib env args [] = (args.map (expandArgument lib env)).flatten ∧
    (resolveArguments lib env args []).length =
      (args.map (fun arg => (expandArgument lib env arg).length)).sum ∧
    (∀ before after : List String, ∀ arg : String, args = before ++ arg :: after →
      expandArgument lib env arg = [] →
      resolveArguments lib env args [] = resolveArguments lib env (before ++ after) []) ∧
    (∀ arg ∈ args,
      (((env.fileAndExt arg).2 = "" ∨ arg = ".") →
        ((env.isDir arg).2 = none → (env.isDir arg).1 = true →
          (env.listModels arg ".mod").2 = none →
          expandArgument lib env arg =
            (env.listModels arg ".mod").1.map (fun model => lib.pathJoin [arg, model])) ∧
        (((env.isDir arg).2 ≠ none ∨ (env.isDir arg).1 = false ∨
            (env.listModels arg ".mod").2 ≠ none) →
          expandArgument lib env arg = [])) ∧
      (¬ ((env.fileAndExt arg).2 = "" ∨ arg = ".") → hasBracketPair arg = true →
        ((env.expandNameSequence arg).2 = none →
          expandArgument lib env arg = (env.expandNameSequence arg).1) ∧
        ((env.expandNameSequence arg).2 ≠ none → expandArgument lib env arg = [])) ∧
      (¬ ((env.fileAndExt arg).2 = "" ∨ arg = ".") → hasBracketPair arg = false →
        expandArgument lib env arg = [arg])) := by
  have hpaths := resolveArguments_eq lib env args []
  rw [List.nil_append] at hpaths
  refine ⟨by rw [nonmemModelsFromArguments, hpaths], hpaths, ?_, ?_, ?_⟩
  · rw [hpaths, List.length_flatten, List.map_map]
    rfl
  · intro before after arg hargs hempty
    rw [hpaths, resolveArguments_eq lib env (before ++ after) [], hargs]
    simp [hempty]
  · intro arg _
    refine ⟨fun hdir => ⟨fun h1 h2 h3 => ?_, fun h => ?_⟩, fun hdir hbr => ⟨fun h => ?_, fun h => ?_⟩,
      fun hdir hbr => ?_⟩
    · simp [expandArgument, hdir, h1, h2, h3]
    · have hnot : ¬ ((env.isDir arg).2 = none ∧ (env.isDir arg).1 = true ∧
          (env.listModels arg ".mod").2 = none) := by
        rintro ⟨h1, h2, h3⟩
        rcases h with h | h | h
        · exact h h1
        · rw [h2] at h
          cases h
        · exact h h3
      simp [expandArgument, hdir, hnot]
    · simp [expandArgument, hdir, hbr, h]
    · simp [expandArgument, hdir, hbr, h]
    · simp [expandArgument, hdir, hbr]

/-- Claim C16 at seven arguments: a directory, a range, a malformed range, a
path that cannot be listed, a literal path given twice, and a `.` that is not a
directory. -/
theorem nonmemModelsFromArguments_paths_witness :
    resolveArguments plainLib sampleResolverEnv
        ["/data", "run[001:003].mod", "run[x].mod", "/missing", "a.mod", "a.mod", "."] [] =
      ["/data/run001.mod", "/data/run002.mod", "run001.mod", "run002.mod", "run003.mod",
        "a.mod", "a.mod"] :=
  ((nonmemModelsFromArguments_paths plainLib (memBuilderEnv fsDottedNames sampleConfig)
    sampleResolverEnv
    ["/data", "run[001:003].mod", "run[x].mod", "/missing", "a.mod", "a.mod", "."]).2.1).trans
    (by decide)

end Babylon
